import Mathlib

set_option maxHeartbeats 1000000
set_option maxRecDepth 8000

/-!
Verification development for `apache_jira_scraper.py`.

The scraper is shallowly embedded as pure Lean functions.  The external HTTP
transport (the `requests` session) is modelled as a scripted collaborator: a
list of `HttpResponse` values consumed one per issued request, so theorems
quantify over arbitrary server behaviour.  Real-time pacing (`throttle_sleep`)
is not modelled; the explicit `time.sleep(...)` calls of the retry logic are
recorded as `Event.slept` trace events.  The progress bar (`tqdm`) is
display-only and not modelled.
-/

namespace Scraper

/- JSON values as decoded by Python `json.loads`: `None`, `bool`, `int`, `str`,
`list`, `dict`.  Numbers are modelled as integers; float literals do not occur
in any field this scraper touches.  Arrays and objects are encoded with the
mutual types `JList` / `JFields` (isomorphic to `List Json` and
`List (String × Json)`) so that equality is decidable by structural
recursion. -/
mutual
inductive Json where
  | null : Json
  | bool (b : Bool) : Json
  | num (n : Int) : Json
  | str (s : String) : Json
  | arr (elems : JList) : Json
  | obj (fields : JFields) : Json
  deriving DecidableEq, Repr
inductive JList where
  | nil : JList
  | cons (head : Json) (tail : JList) : JList
  deriving DecidableEq, Repr
inductive JFields where
  | nil : JFields
  | cons (key : String) (val : Json) (tail : JFields) : JFields
  deriving DecidableEq, Repr
end

def JList.toList : JList → List Json
  | .nil => []
  | .cons x rest => x :: rest.toList

def JList.ofList : List Json → JList
  | [] => .nil
  | x :: rest => .cons x (JList.ofList rest)

def JFields.toList : JFields → List (String × Json)
  | .nil => []
  | .cons k v rest => (k, v) :: rest.toList

def JFields.ofList : List (String × Json) → JFields
  | [] => .nil
  | (k, v) :: rest => .cons k v (JFields.ofList rest)

/-- JSON array literal from a Lean list. -/
def Json.arrL (xs : List Json) : Json := .arr (JList.ofList xs)

/-- JSON object literal from a Lean association list. -/
def Json.objL (kvs : List (String × Json)) : Json := .obj (JFields.ofList kvs)

/-- First-match lookup in a decoded JSON object (Python dict keys are unique,
so first match is the match). -/
def lookupField : JFields → String → Option Json
  | .nil, _ => none
  | .cons k v rest, key => if k = key then some v else lookupField rest key

/-- Python `d.get(key, default)`.  Defined on dicts only; on any non-dict value
the attribute access raises `AttributeError` (modelled as `Except.error`).  A key
that is present with value `null` yields `null`, not the default, as in Python. -/
def pyGet (j : Json) (key : String) (dflt : Json) : Except String Json :=
  match j with
  | .obj kvs => .ok ((lookupField kvs key).getD dflt)
  | _ => .error "AttributeError"

/-- Python truthiness of a JSON-decoded value. -/
def truthy : Json → Bool
  | .null => false
  | .bool b => b
  | .num n => n != 0
  | .str s => !s.isEmpty
  | .arr .nil => false
  | .arr (.cons _ _) => true
  | .obj .nil => false
  | .obj (.cons _ _ _) => true

/-- Python `a or b`. -/
def pyOr (a b : Json) : Json := if truthy a then a else b

/-- Python `int` coercion as used by arithmetic and comparison: ints are ints
and bools are 0/1 (Python `bool` is an `int` subclass); anything else makes
`x + n` or `n >= x` raise `TypeError`. -/
def asPyInt : Json → Option Int
  | .num n => some n
  | .bool b => some (cond b 1 0)
  | _ => none

def JList.length : JList → Nat
  | .nil => 0
  | .cons _ rest => rest.length + 1

def JFields.length : JFields → Nat
  | .nil => 0
  | .cons _ _ rest => rest.length + 1

/-- Python `len`: defined for lists, strings and dicts; raises `TypeError`
otherwise. -/
def pyLen : Json → Except String Int
  | .arr xs => .ok xs.length
  | .str s => .ok s.length
  | .obj kvs => .ok kvs.length
  | _ => .error "TypeError"

/-- Python `for x in v`: lists yield their elements, strings yield their
characters as 1-character strings, dicts yield their keys; other JSON-decoded
values raise `TypeError`. -/
def toIterable : Json → Except String (List Json)
  | .arr xs => .ok xs.toList
  | .str s => .ok (s.data.map fun c => .str (String.singleton c))
  | .obj kvs => .ok (kvs.toList.map fun kv => .str kv.1)
  | _ => .error "TypeError"

/-- Whether a JSON value is a dict containing `key`. -/
def hasKey (j : Json) (key : String) : Bool :=
  match j with
  | .obj kvs => (lookupField kvs key).isSome
  | _ => false

/- Rendering of a JSON value as Python `str()` would show it inside an
f-string.  The rendering of nested lists/dicts approximates Python `repr`;
no claim depends on the exact text, only on `pyStr` being a total pure
function of its argument. -/
mutual
def pyStr : Json → String
  | .null => "None"
  | .bool true => "True"
  | .bool false => "False"
  | .num n => toString n
  | .str s => s
  | .arr xs => "[" ++ pyStrList xs ++ "]"
  | .obj kvs => "\x7b" ++ pyStrFields kvs ++ "\x7d"
def pyStrList : JList → String
  | .nil => ""
  | .cons x .nil => pyStr x
  | .cons x rest => pyStr x ++ ", " ++ pyStrList rest
def pyStrFields : JFields → String
  | .nil => ""
  | .cons k v .nil => k ++ ": " ++ pyStr v
  | .cons k v rest => k ++ ": " ++ pyStr v ++ ", " ++ pyStrFields rest
end

/- JSON serialization standing in for `json.dumps`.  Claims use it only as a
fixed rendering of records into log lines; the exact text is never relied
on. -/
mutual
def dumps : Json → String
  | .null => "null"
  | .bool true => "true"
  | .bool false => "false"
  | .num n => toString n
  | .str s => "\"" ++ s ++ "\""
  | .arr xs => "[" ++ dumpsList xs ++ "]"
  | .obj kvs => "\x7b" ++ dumpsFields kvs ++ "\x7d"
def dumpsList : JList → String
  | .nil => ""
  | .cons x .nil => dumps x
  | .cons x rest => dumps x ++ ", " ++ dumpsList rest
def dumpsFields : JFields → String
  | .nil => ""
  | .cons k v .nil => "\"" ++ k ++ "\": " ++ dumps v
  | .cons k v rest => "\"" ++ k ++ "\": " ++ dumps v ++ ", " ++ dumpsFields rest
end

/-- One comment rendered to text, lines 99-103 of the source:
`author = c.get("author", {}).get("displayName", "")`, `body = c.get("body", "")`,
`created = c.get("created", "")`, then the f-string
`f"{author} ({created}): {body}"`. -/
def commentText (c : Json) : Except String String := do
  let authorObj ← pyGet c "author" (.obj .nil)
  let author ← pyGet authorObj "displayName" (.str "")
  let body ← pyGet c "body" (.str "")
  let created ← pyGet c "created" (.str "")
  .ok (pyStr author ++ " (" ++ pyStr created ++ "): " ++ pyStr body)

/-- Shallow embedding of `transform_issue_for_llm` (source lines 91-143),
following the source expression by expression.  Python exceptions
(`AttributeError` from `.get` on a non-dict, `TypeError` from iterating a
non-iterable) are modelled as `Except.error`.  The source appends the raw
record to `raw_batch` before calling this function; that ordering is handled
at the call site in `process_items`. -/
def transform_issue_for_llm (issue_raw : Json) : Except String Json := do
  let fields ← pyGet issue_raw "fields" (.obj .nil)
  let commentField ← pyGet fields "comment" (.obj .nil)
  let commentsData ← pyGet commentField "comments" (.arr .nil)
  let commentIter ← toIterable commentsData
  let texts ← commentIter.mapM commentText
  let descriptionRaw ← pyGet fields "description" .null
  let description := pyOr descriptionRaw (.str "")
  let titleRaw ← pyGet fields "summary" .null
  let title := pyOr titleRaw (.str "")
  let issueKey ← pyGet issue_raw "key" .null
  let projectObj ← pyGet fields "project" (.obj .nil)
  let projectKey ← pyGet projectObj "key" .null
  let issuetypeObj ← pyGet fields "issuetype" (.obj .nil)
  let issuetypeName ← pyGet issuetypeObj "name" .null
  let statusObj ← pyGet fields "status" (.obj .nil)
  let statusName ← pyGet statusObj "name" .null
  let priorityRaw ← pyGet fields "priority" .null
  let priorityName ← pyGet (pyOr priorityRaw (.obj .nil)) "name" .null
  let reporterRaw ← pyGet fields "reporter" .null
  let reporterName ← pyGet (pyOr reporterRaw (.obj .nil)) "displayName" .null
  let assigneeRaw ← pyGet fields "assignee" .null
  let assigneeName ← pyGet (pyOr assigneeRaw (.obj .nil)) "displayName" .null
  let labels ← pyGet fields "labels" (.arr .nil)
  let created ← pyGet fields "created" .null
  let updated ← pyGet fields "updated" .null
  let rawIssueId ← pyGet issue_raw "id" .null
  let metadata : Json := .objL [
    ("issue_key", issueKey), ("project", projectKey), ("issuetype", issuetypeName),
    ("status", statusName), ("priority", priorityName), ("reporter", reporterName),
    ("assignee", assigneeName), ("labels", labels), ("created", created),
    ("updated", updated)]
  let joined := String.intercalate "\n" texts
  let summarizationPrompt : Json := .objL [
    ("task", .str "summarization"),
    ("input", .str ("Title: " ++ pyStr title ++ "\n\nDescription:\n" ++ pyStr description
      ++ "\n\nComments:\n" ++ joined)),
    ("output", .str "")]
  let qnaPrompt : Json := .objL [
    ("task", .str "qa"),
    ("context", .str (pyStr title ++ "\n\n" ++ pyStr description ++ "\n\n" ++ joined)),
    ("qa_pairs", .arr .nil)]
  .ok (.objL [
    ("metadata", metadata),
    ("title", title),
    ("description", description),
    ("comments", Json.arrL (texts.map Json.str)),
    ("derived", .objL [("summarization", summarizationPrompt), ("qna", qnaPrompt)]),
    ("raw_issue_id", rawIssueId)])

/-- `Except` success test. -/
def exceptOk {ε α : Type} : Except ε α → Bool
  | .ok _ => true
  | .error _ => false

/-- Page size constant `MAX_RESULTS = 50` (source line 33): sent to the server
as the `maxResults` paging parameter; the server is free to return fewer or
more items. -/
def MAX_RESULTS : Nat := 50

/-- What `session.get` hands back for one issued request: HTTP status, the
optional `Retry-After` header, and the decoded JSON body.  The external
`requests` session (including its transport-level retry adapter) is the
scripted collaborator producing these. -/
structure HttpResponse where
  status : Nat
  retryAfter : Option String
  body : Json
  deriving DecidableEq, Repr

/-- Persisted per-source state, the parsed content of `state/<key>.json`:
`startAt` cursor plus the `seen_issue_keys` dedup collection (a Python `set`
in memory; modelled as an insertion-ordered duplicate-free list, since only
membership and contents matter). -/
structure Checkpoint where
  startAt : Int
  seen : List Json
  deriving DecidableEq, Repr

/-- `read_state` (source lines 70-75): the loaded checkpoint file, or the fresh
state `(startAt = 0, seen = {})` when none exists. -/
def read_state (file : Option Checkpoint) : Checkpoint := file.getD ⟨0, []⟩

/-- `write_jsonl` (source lines 84-88): append one serialized record per line
to the log, in input order.  The log is modelled as its list of lines. -/
def write_jsonl (file : List String) (records : List Json) : List String :=
  file ++ records.map fun r => dumps r ++ "\n"

/-- Serialized checkpoint content as `save_state` writes it
(`json.dump(state, f, indent=2)`; the exact rendering is immaterial). -/
def serialize_state (cp : Checkpoint) : String :=
  dumps (.objL [("startAt", .num cp.startAt), ("seen_issue_keys", Json.arrL cp.seen)])

/-- `save_state` (source lines 78-81) opens the checkpoint file with mode "w",
which truncates it in place, then `json.dump` writes the new content.  This
lists the on-disk contents reachable if the process crashes during the save:
the old content (crash before `open`), the empty file (crash right after the
truncating `open`), and the new content (crash after the dump completes).
An atomic save (write to a temporary file, then rename) would reach only
`old` and `new`.  Byte-level partial writes of `new` are also possible in
reality; the truncated state alone witnesses non-atomicity. -/
def save_state_crash_states (old new : String) : List String := [old, "", new]

/-- Observable actions of one `scrape_project` run, in order:
list-endpoint requests with their offset, detail-endpoint requests with their
key, explicit `time.sleep` calls with their duration, one `wrote` event per
line appended to the raw/transformed logs (carrying the summary key it was
fetched under, the raw record and the transformed record), and checkpoint
saves with the saved state. -/
inductive Event where
  | listReq (startAt : Int)
  | detailReq (key : Json)
  | slept (seconds : Nat)
  | wrote (key : Json) (raw : Json) (transformed : Json)
  | saved (cp : Checkpoint)
  deriving DecidableEq, Repr

/-- Value of one decimal digit character. -/
def digitVal (c : Char) : Nat := c.toNat - 48

/-- The number a list of decimal digit characters denotes, most significant
first — what Python `int` returns on a digit string. -/
def decimalValue (cs : List Char) : Nat :=
  cs.foldl (fun n c => n * 10 + digitVal c) 0

/-- `wait = int(ra) if ra and ra.isdigit() else 60` (source lines 154 and 187):
the `Retry-After` header value when it is a non-empty all-digit string, and
the conservative 60-second fallback when the header is absent, empty or
malformed.  (Python `isdigit` also accepts some non-ASCII digit characters
`int` would still parse; those do not occur in HTTP headers.) -/
def parseRetryAfter : Option String → Nat
  | none => 60
  | some s =>
    if !s.isEmpty && s.toList.all Char.isDigit then decimalValue s.toList else 60

instance {ε α : Type} [DecidableEq ε] [DecidableEq α] : DecidableEq (Except ε α) := fun a b =>
  match a, b with
  | .ok x, .ok y =>
    if h : x = y then .isTrue (by rw [h]) else .isFalse (by simp [h])
  | .error x, .error y =>
    if h : x = y then .isTrue (by rw [h]) else .isFalse (by simp [h])
  | .ok _, .error _ => .isFalse (by simp)
  | .error _, .ok _ => .isFalse (by simp)

/-- Result of one `fetch_issue` call: its trace events, the returned JSON (or
the exception it raised), the number of nested `fetch_issue` activations the
call produced (its call-stack depth, 1 plus one per 429 retry, since the
retry on line 157 is a recursive call), and the rest of the script. -/
structure FetchResult where
  events : List Event
  outcome : Except String Json
  depth : Nat
  remaining : List HttpResponse
  deriving DecidableEq, Repr

/-- Shallow embedding of `fetch_issue` (source lines 146-159): issue the detail
request; on status 429 sleep per `Retry-After` (60s fallback) and recurse; on
any other 4xx/5xx status `raise_for_status` raises `HTTPError`; otherwise
return the body.  The script running out is a model artifact terminating the
otherwise unbounded 429 recursion. -/
def fetch_issue (key : Json) : List HttpResponse → FetchResult
  | [] => ⟨[.detailReq key], .error "script exhausted", 1, []⟩
  | r :: rest =>
    if r.status = 429 then
      let f := fetch_issue key rest
      ⟨.detailReq key :: .slept (parseRetryAfter r.retryAfter) :: f.events,
        f.outcome, f.depth + 1, f.remaining⟩
    else if 400 ≤ r.status then
      ⟨[.detailReq key], .error "HTTPError", 1, rest⟩
    else
      ⟨[.detailReq key], .ok r.body, 1, rest⟩

/-- Result of the per-item loop over one page. -/
structure ProcResult where
  events : List Event
  seen : List Json
  batch : List (Json × Json × Json)
  remaining : List HttpResponse
  failure : Option String
  deriving DecidableEq, Repr

/-- The per-item loop of `scrape_project` (source lines 209-223): for each
summary, read its `key`; skip it if the key is in `seen`; otherwise fetch the
full issue (an exception there is caught, logged and the item skipped,
lines 216-218), transform it (an exception there propagates, line 221), stage
the `(key, raw, transformed)` triple for this page batch, and add the key to
`seen`.  `batch` triples are in processing order.  (The source appends the
raw record to `raw_batch` before calling the transform; when the transform
raises, that partial batch is abandoned unwritten, so it is not modelled.) -/
def process_items : List Json → List Json → List HttpResponse → ProcResult
  | [], seen, script => ⟨[], seen, [], script, none⟩
  | it :: more, seen, script =>
    match pyGet it "key" .null with
    | .error e => ⟨[], seen, [], script, some e⟩
    | .ok key =>
      if key ∈ seen then
        process_items more seen script
      else
        let f := fetch_issue key script
        match f.outcome with
        | .error e =>
          if e = "script exhausted" then
            ⟨f.events, seen, [], f.remaining, some e⟩
          else
            let p := process_items more seen f.remaining
            ⟨f.events ++ p.events, p.seen, p.batch, p.remaining, p.failure⟩
        | .ok raw =>
          match transform_issue_for_llm raw with
          | .error e => ⟨f.events, seen, [], f.remaining, some e⟩
          | .ok t =>
            let p := process_items more (seen ++ [key]) f.remaining
            ⟨f.events ++ p.events, p.seen, (key, raw, t) :: p.batch, p.remaining, p.failure⟩

/-- Where the crawl loop goes after one iteration: run another iteration with
updated cursor / seen / script, terminate normally, or abort with an
uncaught exception. -/
inductive PageNext where
  | again (startAt : Int) (seen : List Json) (remaining : List HttpResponse)
  | stop (startAt : Int) (seen : List Json)
  | fail (startAt : Int) (seen : List Json) (msg : String)
  deriving DecidableEq, Repr

structure PageResult where
  events : List Event
  next : PageNext
  deriving DecidableEq, Repr

/-- The loop exit test after a saved page (source lines 234-235):
`if startAt >= resp.get("total", startAt): more_to_fetch = False`, where
`startAt` is already the new cursor.  A missing `total` compares the cursor
with itself (and stops); a non-numeric `total` raises `TypeError` after the
save. -/
def totalStep (body : Json) (newStart : Int) (seenOut : List Json)
    (rem : List HttpResponse) : PageNext :=
  match pyGet body "total" (.num newStart) with
  | .error e => .fail newStart seenOut e
  | .ok tVal =>
    match asPyInt tVal with
    | none => .fail newStart seenOut "TypeError"
    | some total =>
      if total ≤ newStart then .stop newStart seenOut
      else .again newStart seenOut rem

/-- One iteration of the `while more_to_fetch` loop (source lines 173-235),
given the response `r` to the list request issued at offset `st` and the rest
of the script for detail fetches:
status 429 sleeps per `Retry-After` then `continue` (cursor unchanged);
status >= 500 sleeps 10s then `continue`; any other status >= 400 raises
`HTTPError`; otherwise read `issues = resp.get("issues", [])`, `break` when it
is empty/falsy, run the per-item loop, append the staged batches to the logs
(`if raw_batch:` — empty batches append nothing either way), set
`startAt = resp.get("startAt", startAt) + len(issues)`, save the checkpoint,
and stop once `startAt >= resp.get("total", startAt)`. -/
def page_step (st : Int) (seen : List Json) (r : HttpResponse)
    (rest : List HttpResponse) : PageResult :=
  if r.status = 429 then
    ⟨[.listReq st, .slept (parseRetryAfter r.retryAfter)], .again st seen rest⟩
  else if 500 ≤ r.status then
    ⟨[.listReq st, .slept 10], .again st seen rest⟩
  else if 400 ≤ r.status then
    ⟨[.listReq st], .fail st seen "HTTPError"⟩
  else
    match pyGet r.body "issues" (.arr .nil) with
    | .error e => ⟨[.listReq st], .fail st seen e⟩
    | .ok issuesVal =>
      if truthy issuesVal = false then
        ⟨[.listReq st], .stop st seen⟩
      else
        match toIterable issuesVal with
        | .error e => ⟨[.listReq st], .fail st seen e⟩
        | .ok items =>
          let p := process_items items seen rest
          match p.failure with
          | some e => ⟨.listReq st :: p.events, .fail st p.seen e⟩
          | none =>
            let wrotes := p.batch.map fun b => Event.wrote b.1 b.2.1 b.2.2
            match pyGet r.body "startAt" (.num st) with
            | .error e => ⟨.listReq st :: (p.events ++ wrotes), .fail st p.seen e⟩
            | .ok saVal =>
              match asPyInt saVal with
              | none => ⟨.listReq st :: (p.events ++ wrotes), .fail st p.seen "TypeError"⟩
              | some sa =>
                match pyLen issuesVal with
                | .error e => ⟨.listReq st :: (p.events ++ wrotes), .fail st p.seen e⟩
                | .ok n =>
                  let newStart := sa + n
                  ⟨.listReq st :: (p.events ++ wrotes ++ [.saved ⟨newStart, p.seen⟩]),
                    totalStep r.body newStart p.seen p.remaining⟩

/-- Everything observable about one `scrape_project` run: its ordered trace of
events, the final in-memory cursor and seen set, and the uncaught exception
it ended with, if any (`none` means it reached line 237 normally). -/
structure RunResult where
  events : List Event
  finalStartAt : Int
  finalSeen : List Json
  error : Option String
  deriving DecidableEq, Repr

/-- The crawl loop with explicit fuel.  Every iteration consumes at least the
list response from the script, so any fuel exceeding the script length gives
the loop's true behaviour (`scrape_run_congr` below); the fuel merely makes
the recursion structural so that runs compute by `rfl`/`decide`.  An empty
script means the scripted server has no response for the request just issued
(model artifact, reported as the `"script exhausted"` error). -/
def scrape_run : Nat → Int → List Json → List HttpResponse → RunResult
  | 0, st, seen, _ => ⟨[], st, seen, some "fuel exhausted"⟩
  | _ + 1, st, seen, [] => ⟨[.listReq st], st, seen, some "script exhausted"⟩
  | fuel + 1, st, seen, r :: rest =>
    let p := page_step st seen r rest
    match p.next with
    | .again st2 seen2 rem =>
      let R := scrape_run fuel st2 seen2 rem
      ⟨p.events ++ R.events, R.finalStartAt, R.finalSeen, R.error⟩
    | .stop st2 seen2 => ⟨p.events, st2, seen2, none⟩
    | .fail st2 seen2 msg => ⟨p.events, st2, seen2, some msg⟩

/-- The `while more_to_fetch` loop of `scrape_project`, from a given loaded
cursor and seen set, against a scripted transport. -/
def scrape_loop (st : Int) (seen : List Json) (script : List HttpResponse) : RunResult :=
  scrape_run (script.length + 1) st seen script

/-- `scrape_project` (source lines 162-239): load the checkpoint (fresh when
the state file is absent) and run the crawl loop from it. -/
def scrape_project (file : Option Checkpoint) (script : List HttpResponse) : RunResult :=
  scrape_loop (read_state file).startAt (read_state file).seen script

/-- Keys of the records appended to the raw log, in write order. -/
def writtenKeys (evs : List Event) : List Json :=
  evs.filterMap fun e => match e with | .wrote k _ _ => some k | _ => none

/-- The raw log's appended records, in write order. -/
def rawLog (evs : List Event) : List Json :=
  evs.filterMap fun e => match e with | .wrote _ r _ => some r | _ => none

/-- The transformed log's appended records, in write order. -/
def transformedLog (evs : List Event) : List Json :=
  evs.filterMap fun e => match e with | .wrote _ _ t => some t | _ => none

/-- Keys of the detail-endpoint requests issued, in order. -/
def detailKeys (evs : List Event) : List Json :=
  evs.filterMap fun e => match e with | .detailReq k => some k | _ => none

/-- Offsets of the list-endpoint requests issued, in order. -/
def listOffsets (evs : List Event) : List Int :=
  evs.filterMap fun e => match e with | .listReq c => some c | _ => none

/-- The checkpoints saved by `save_state`, in save order. -/
def savesOf (evs : List Event) : List Checkpoint :=
  evs.filterMap fun e => match e with | .saved cp => some cp | _ => none

/-- The explicit `time.sleep` durations, in order. -/
def sleepsOf (evs : List Event) : List Nat :=
  evs.filterMap fun e => match e with | .slept s => some s | _ => none

/-- Cursor component of the loop's next state. -/
def nextStart : PageNext → Int
  | .again c _ _ => c
  | .stop c _ => c
  | .fail c _ _ => c

/-- Seen component of the loop's next state. -/
def nextSeen : PageNext → List Json
  | .again _ s _ => s
  | .stop _ s => s
  | .fail _ s _ => s

/-- Temporal write/save discipline over a trace: scanning the events in order
while accumulating the keys written so far (starting from `written`), every
checkpoint save contains all keys already written at the moment it happens —
i.e. a key reaches the raw log only after it is in the in-memory `seen` that
the next save persists. -/
def savesRespectWrites : List Json → List Event → Prop
  | _, [] => True
  | written, .saved cp :: rest =>
    (∀ k ∈ written, k ∈ cp.seen) ∧ savesRespectWrites written rest
  | written, .wrote k _ _ :: rest => savesRespectWrites (written ++ [k]) rest
  | written, _ :: rest => savesRespectWrites written rest

/-- Checkpoint progress order: cursor does not decrease and seen does not
shrink. -/
def cpLe (a b : Checkpoint) : Prop :=
  a.startAt ≤ b.startAt ∧ ∀ k ∈ a.seen, k ∈ b.seen

/-- The value under `key`, when present, is a JSON object. -/
def objOrMissing (kvs : JFields) (key : String) : Bool :=
  match lookupField kvs key with
  | none => true
  | some (.obj _) => true
  | some _ => false

/-- The value under `key`, when present, is an object after Python
`value or {}` — i.e. an object, or any falsy value (such as `null`). -/
def objOrFalsy (kvs : JFields) (key : String) : Bool :=
  match lookupField kvs key with
  | none => true
  | some v => match pyOr v (.obj .nil) with | .obj _ => true | _ => false

/-- A comment entry the transform can render: a dict whose `author`, when
present, is a dict. -/
def wellShapedComment (c : Json) : Bool :=
  match c with
  | .obj kvs => objOrMissing kvs "author"
  | _ => false

/-- The shape `transform_issue_for_llm` needs to run to completion: the record
and its `fields` are dicts (or `fields` absent); `comment` (when present) is a
dict whose `comments` (when present) is a list of well-shaped comments;
`project`, `issuetype`, `status` are dicts when present; `priority`,
`reporter`, `assignee` are dicts or falsy when present.  Every real Jira
payload satisfies this; a record violating it makes the transform raise. -/
def wellShapedIssue (j : Json) : Bool :=
  match j with
  | .obj top =>
    match (lookupField top "fields").getD (.obj .nil) with
    | .obj fs =>
      (match (lookupField fs "comment").getD (.obj .nil) with
       | .obj cf =>
         (match (lookupField cf "comments").getD (.arr .nil) with
          | .arr cs => cs.toList.all wellShapedComment
          | _ => false)
       | _ => false) &&
      objOrMissing fs "project" && objOrMissing fs "issuetype" &&
      objOrMissing fs "status" && objOrFalsy fs "priority" &&
      objOrFalsy fs "reporter" && objOrFalsy fs "assignee"
    | _ => false
  | _ => false

/-- Ceiling division on naturals. -/
def ceilDiv (a b : Nat) : Nat := (a + b - 1) / b

/-- Summary of record number `i` as a faithful list endpoint returns it. -/
def summaryFor (i : Nat) : Json := .objL [("key", .num (i : Int))]

/-- Detail response for record number `i` from a faithful detail endpoint. -/
def detailRespFor (i : Nat) : HttpResponse :=
  ⟨200, none, .objL [("key", .num (i : Int))]⟩

/-- List response of a faithful server with `T` total records serving pages of
(at most) `P` records in a stable order: at offset `c` it reports the true
total and offset and returns the records numbered `c` to
`min (c + P) T - 1`. -/
def listRespAt (c T P : Nat) : HttpResponse :=
  ⟨200, none, .objL [
    ("startAt", .num (c : Int)), ("total", .num (T : Int)),
    ("issues", Json.arrL ((List.range' c (min P (T - c))).map summaryFor))]⟩

/-- The interleaved response script a faithful server with total `T` and page
size `P` produces for a crawl currently at offset `c`, for `k` more pages:
each page is one list response followed by one detail response per record on
the page, in order. -/
def faithfulScript : Nat → Nat → Nat → Nat → List HttpResponse
  | 0, _, _, _ => []
  | k + 1, c, T, P =>
    listRespAt c T P ::
      ((List.range' c (min P (T - c))).map detailRespFor
        ++ faithfulScript k (c + min P (T - c)) T P)

end Scraper

namespace Scraper

@[simp]
lemma writtenKeys_nil : writtenKeys [] = [] := rfl

@[simp]
lemma detailKeys_nil : detailKeys [] = [] := rfl

@[simp]
lemma savesOf_nil : savesOf [] = [] := rfl

@[simp]
lemma listOffsets_nil : listOffsets [] = [] := rfl

@[simp]
lemma sleepsOf_nil : sleepsOf [] = [] := rfl

@[simp]
lemma rawLog_nil : rawLog [] = [] := rfl

@[simp]
lemma transformedLog_nil : transformedLog [] = [] := rfl

@[simp]
lemma writtenKeys_append (a b : List Event) :
    writtenKeys (a ++ b) = writtenKeys a ++ writtenKeys b := by
  simp [writtenKeys]

@[simp]
lemma detailKeys_append (a b : List Event) :
    detailKeys (a ++ b) = detailKeys a ++ detailKeys b := by
  simp [detailKeys]

@[simp]
lemma savesOf_append (a b : List Event) :
    savesOf (a ++ b) = savesOf a ++ savesOf b := by
  simp [savesOf]

@[simp]
lemma listOffsets_append (a b : List Event) :
    listOffsets (a ++ b) = listOffsets a ++ listOffsets b := by
  simp [listOffsets]

@[simp]
lemma rawLog_append (a b : List Event) :
    rawLog (a ++ b) = rawLog a ++ rawLog b := by
  simp [rawLog]

@[simp]
lemma transformedLog_append (a b : List Event) :
    transformedLog (a ++ b) = transformedLog a ++ transformedLog b := by
  simp [transformedLog]

@[simp]
lemma sleepsOf_append (a b : List Event) :
    sleepsOf (a ++ b) = sleepsOf a ++ sleepsOf b := by
  simp [sleepsOf]

/-- The script left over by a detail fetch is a suffix of the script it was
given (each attempt consumes one response). -/
lemma fetch_issue_remaining_suffix (key : Json) (script : List HttpResponse) :
    (fetch_issue key script).remaining <:+ script := by
  induction script with
  | nil => simp [fetch_issue]
  | cons r rest ih =>
    unfold fetch_issue
    split
    · exact ih.trans (List.suffix_cons r rest)
    · split
      · exact List.suffix_cons r rest
      · exact List.suffix_cons r rest

/-- A detail fetch emits only detail requests (all for its own key) and
sleeps. -/
lemma fetch_issue_events_shape (key : Json) (script : List HttpResponse) :
    ∀ e ∈ (fetch_issue key script).events,
      e = Event.detailReq key ∨ ∃ s, e = Event.slept s := by
  induction script with
  | nil => simp [fetch_issue]
  | cons r rest ih =>
    unfold fetch_issue
    split
    · intro e he
      simp only [List.mem_cons] at he
      rcases he with h | h | h
      · exact Or.inl h
      · exact Or.inr ⟨_, h⟩
      · exact ih e h
    · split <;> simp

/-- Events that are only detail requests and sleeps contribute nothing to the
logs, the saves, or the list-request trace. -/
lemma quiet_events_nil {evs : List Event}
    (h : ∀ e ∈ evs, (∃ k, e = Event.detailReq k) ∨ ∃ s, e = Event.slept s) :
    writtenKeys evs = [] ∧ savesOf evs = [] ∧ listOffsets evs = [] ∧
      rawLog evs = [] ∧ transformedLog evs = [] := by
  refine ⟨?_, ?_, ?_, ?_, ?_⟩ <;>
    · simp only [writtenKeys, savesOf, listOffsets, rawLog, transformedLog,
        List.filterMap_eq_nil_iff]
      intro e he
      rcases h e he with ⟨k, hk⟩ | ⟨s, hs⟩ <;> subst_vars <;> rfl

/-- Traces without writes or saves respect the write/save discipline under any
accumulator. -/
lemma savesRespectWrites_quiet {evs : List Event}
    (h : ∀ e ∈ evs, (∃ k, e = Event.detailReq k) ∨ ∃ s, e = Event.slept s) :
    ∀ w, savesRespectWrites w evs := by
  induction evs with
  | nil => intro w; trivial
  | cons e rest ih =>
    intro w
    rcases h e (by simp) with ⟨k, hk⟩ | ⟨s, hs⟩ <;> subst_vars <;>
      · show savesRespectWrites w rest
        exact ih (fun x hx => h x (by simp [hx])) w

end Scraper

namespace Scraper

/-- Keys of the detail requests a fetch emits are all its own key. -/
lemma fetch_issue_detailKeys (key : Json) (script : List HttpResponse) :
    ∀ k ∈ detailKeys (fetch_issue key script).events, k = key := by
  intro k hk
  simp only [detailKeys, List.mem_filterMap] at hk
  obtain ⟨e, he, hm⟩ := hk
  rcases fetch_issue_events_shape key script e he with h | ⟨s, h⟩ <;> subst h
  · simpa using hm.symm
  · simp at hm

/-- Specification of the per-item loop: the final seen set is the input seen
set extended by exactly the staged batch keys in order; those keys are
distinct and fresh; the loop emits only detail requests and sleeps; every
detail request is for a key outside the input seen set; every staged triple
pairs a raw record with its transform; and the loop consumes a prefix of the
script. -/
lemma process_items_spec (items : List Json) (seen : List Json)
    (script : List HttpResponse) :
    (process_items items seen script).seen
      = seen ++ (process_items items seen script).batch.map (fun b => b.1) ∧
    ((process_items items seen script).batch.map (fun b => b.1)).Nodup ∧
    (∀ k ∈ (process_items items seen script).batch.map (fun b => b.1), k ∉ seen) ∧
    (∀ e ∈ (process_items items seen script).events,
      (∃ k, e = Event.detailReq k) ∨ ∃ s, e = Event.slept s) ∧
    (∀ k ∈ detailKeys (process_items items seen script).events, k ∉ seen) ∧
    (∀ b ∈ (process_items items seen script).batch,
      transform_issue_for_llm b.2.1 = .ok b.2.2) ∧
    (process_items items seen script).remaining <:+ script := by
  induction items generalizing seen script with
  | nil => simp [process_items, detailKeys]
  | cons it more ih =>
    cases hk : pyGet it "key" Json.null with
    | error e =>
      simp [process_items, hk, detailKeys]
    | ok key =>
      by_cases hmem : key ∈ seen
      · simp only [process_items, hk, if_pos hmem]
        exact ih seen script
      · cases hout : (fetch_issue key script).outcome with
        | error e =>
          by_cases hex : e = "script exhausted"
          · simp only [process_items, hk, if_neg hmem, hout, if_pos hex]
            refine ⟨by simp, by simp, by simp, ?_, ?_, by simp, fetch_issue_remaining_suffix key script⟩
            · intro x hx
              rcases fetch_issue_events_shape key script x hx with h | ⟨s, h⟩
              · exact Or.inl ⟨key, h⟩
              · exact Or.inr ⟨s, h⟩
            · intro x hx
              rw [fetch_issue_detailKeys key script x hx]
              exact hmem
          · simp only [process_items, hk, if_neg hmem, hout, if_neg hex]
            obtain ⟨h1, h2, h3, h4, h5, h6, h7⟩ := ih seen (fetch_issue key script).remaining
            refine ⟨by simpa using h1, h2, h3, ?_, ?_, h6,
              h7.trans (fetch_issue_remaining_suffix key script)⟩
            · intro x hx
              simp only [List.mem_append] at hx
              rcases hx with hx | hx
              · rcases fetch_issue_events_shape key script x hx with h | ⟨s, h⟩
                · exact Or.inl ⟨key, h⟩
                · exact Or.inr ⟨s, h⟩
              · exact h4 x hx
            · intro x hx
              simp only [detailKeys_append, List.mem_append] at hx
              rcases hx with hx | hx
              · rw [fetch_issue_detailKeys key script x hx]; exact hmem
              · exact h5 x hx
        | ok raw =>
          cases htr : transform_issue_for_llm raw with
          | error e =>
            simp only [process_items, hk, if_neg hmem, hout, htr]
            refine ⟨by simp, by simp, by simp, ?_, ?_, by simp,
              fetch_issue_remaining_suffix key script⟩
            · intro x hx
              rcases fetch_issue_events_shape key script x hx with h | ⟨s, h⟩
              · exact Or.inl ⟨key, h⟩
              · exact Or.inr ⟨s, h⟩
            · intro x hx
              rw [fetch_issue_detailKeys key script x hx]
              exact hmem
          | ok t =>
            simp only [process_items, hk, if_neg hmem, hout, htr]
            obtain ⟨h1, h2, h3, h4, h5, h6, h7⟩ := ih (seen ++ [key]) (fetch_issue key script).remaining
            refine ⟨?_, ?_, ?_, ?_, ?_, ?_,
              h7.trans (fetch_issue_remaining_suffix key script)⟩
            · simpa using h1
            · refine List.Nodup.cons ?_ h2
              intro hmem2
              have := h3 key hmem2
              simp at this
            · intro x hx
              simp only [List.map_cons, List.mem_cons] at hx
              rcases hx with hx | hx
              · subst hx; exact hmem
              · intro hxs
                exact h3 x hx (by simp [hxs])
            · intro x hx
              simp only [List.mem_append] at hx
              rcases hx with hx | hx
              · rcases fetch_issue_events_shape key script x hx with h | ⟨s, h⟩
                · exact Or.inl ⟨key, h⟩
                · exact Or.inr ⟨s, h⟩
              · exact h4 x hx
            · intro x hx
              simp only [detailKeys_append, List.mem_append] at hx
              rcases hx with hx | hx
              · rw [fetch_issue_detailKeys key script x hx]; exact hmem
              · intro hxs
                exact h5 x hx (by simp [hxs])
            · intro b hb
              simp only [List.mem_cons] at hb
              rcases hb with hb | hb
              · subst hb; exact htr
              · exact h6 b hb

end Scraper

namespace Scraper

@[simp]
lemma writtenKeys_wrotes (b : List (Json × Json × Json)) :
    writtenKeys (b.map fun x => Event.wrote x.1 x.2.1 x.2.2) = b.map fun x => x.1 := by
  induction b with
  | nil => rfl
  | cons x rest ih => simp [writtenKeys, List.filterMap_cons] at ih ⊢; exact ih

@[simp]
lemma detailKeys_wrotes (b : List (Json × Json × Json)) :
    detailKeys (b.map fun x => Event.wrote x.1 x.2.1 x.2.2) = [] := by
  induction b with
  | nil => rfl
  | cons x rest ih => simpa [detailKeys, List.filterMap_cons] using ih

@[simp]
lemma savesOf_wrotes (b : List (Json × Json × Json)) :
    savesOf (b.map fun x => Event.wrote x.1 x.2.1 x.2.2) = [] := by
  induction b with
  | nil => rfl
  | cons x rest ih => simpa [savesOf, List.filterMap_cons] using ih

@[simp]
lemma listOffsets_wrotes (b : List (Json × Json × Json)) :
    listOffsets (b.map fun x => Event.wrote x.1 x.2.1 x.2.2) = [] := by
  induction b with
  | nil => rfl
  | cons x rest ih => simpa [listOffsets, List.filterMap_cons] using ih

@[simp]
lemma sleepsOf_wrotes (b : List (Json × Json × Json)) :
    sleepsOf (b.map fun x => Event.wrote x.1 x.2.1 x.2.2) = [] := by
  induction b with
  | nil => rfl
  | cons x rest ih => simpa [sleepsOf, List.filterMap_cons] using ih

@[simp]
lemma rawLog_wrotes (b : List (Json × Json × Json)) :
    rawLog (b.map fun x => Event.wrote x.1 x.2.1 x.2.2) = b.map fun x => x.2.1 := by
  induction b with
  | nil => rfl
  | cons x rest ih => simp [rawLog, List.filterMap_cons] at ih ⊢; exact ih

@[simp]
lemma transformedLog_wrotes (b : List (Json × Json × Json)) :
    transformedLog (b.map fun x => Event.wrote x.1 x.2.1 x.2.2)
      = b.map fun x => x.2.2 := by
  induction b with
  | nil => rfl
  | cons x rest ih => simp [transformedLog, List.filterMap_cons] at ih ⊢; exact ih

/-- Splitting the write/save discipline over an append: the right part starts
from the accumulator extended by the keys the left part wrote. -/
lemma savesRespectWrites_append (a b : List Event) : ∀ w,
    savesRespectWrites w (a ++ b) ↔
      (savesRespectWrites w a ∧ savesRespectWrites (w ++ writtenKeys a) b) := by
  induction a with
  | nil => intro w; simp [savesRespectWrites, writtenKeys]
  | cons e rest ih =>
    intro w
    cases e with
    | saved cp => simp [savesRespectWrites, ih, and_assoc, writtenKeys, List.filterMap_cons]
    | wrote k raw t =>
      simp only [List.cons_append]
      show savesRespectWrites (w ++ [k]) (rest ++ b) ↔
        savesRespectWrites (w ++ [k]) rest ∧ _
      rw [ih (w ++ [k])]
      simp [writtenKeys, List.filterMap_cons]
    | listReq c =>
      simp only [List.cons_append]
      show savesRespectWrites w (rest ++ b) ↔ savesRespectWrites w rest ∧ _
      rw [ih w]
      simp [writtenKeys, List.filterMap_cons]
    | detailReq k =>
      simp only [List.cons_append]
      show savesRespectWrites w (rest ++ b) ↔ savesRespectWrites w rest ∧ _
      rw [ih w]
      simp [writtenKeys, List.filterMap_cons]
    | slept s =>
      simp only [List.cons_append]
      show savesRespectWrites w (rest ++ b) ↔ savesRespectWrites w rest ∧ _
      rw [ih w]
      simp [writtenKeys, List.filterMap_cons]

/-- A trace without saves trivially respects the write/save discipline. -/
lemma savesRespectWrites_no_saves (evs : List Event) (h : savesOf evs = []) :
    ∀ w, savesRespectWrites w evs := by
  induction evs with
  | nil => intro w; trivial
  | cons e rest ih =>
    intro w
    cases e with
    | saved cp => simp [savesOf, List.filterMap_cons] at h
    | wrote k raw t =>
      show savesRespectWrites (w ++ [k]) rest
      exact ih (by simpa [savesOf, List.filterMap_cons] using h) _
    | listReq c =>
      show savesRespectWrites w rest
      exact ih (by simpa [savesOf, List.filterMap_cons] using h) _
    | detailReq k =>
      show savesRespectWrites w rest
      exact ih (by simpa [savesOf, List.filterMap_cons] using h) _
    | slept s =>
      show savesRespectWrites w rest
      exact ih (by simpa [savesOf, List.filterMap_cons] using h) _

lemma pyGet_ok_obj {j : Json} {key : String} {d v : Json} (h : pyGet j key d = .ok v) :
    ∃ kvs, j = .obj kvs := by
  cases j <;> simp [pyGet] at h <;> exact ⟨_, rfl⟩

lemma pyLen_ok_nonneg {v : Json} {n : Int} (h : pyLen v = .ok n) : 0 ≤ n := by
  cases v <;> simp [pyLen] at h <;> omega

end Scraper

namespace Scraper

@[simp]
lemma writtenKeys_listReq (c : Int) (evs : List Event) :
    writtenKeys (Event.listReq c :: evs) = writtenKeys evs := by
  simp [writtenKeys]

@[simp]
lemma writtenKeys_detailReq (k : Json) (evs : List Event) :
    writtenKeys (Event.detailReq k :: evs) = writtenKeys evs := by
  simp [writtenKeys]

@[simp]
lemma writtenKeys_slept (s : Nat) (evs : List Event) :
    writtenKeys (Event.slept s :: evs) = writtenKeys evs := by
  simp [writtenKeys]

@[simp]
lemma writtenKeys_wrote (k raw t : Json) (evs : List Event) :
    writtenKeys (Event.wrote k raw t :: evs) = k :: writtenKeys evs := by
  simp [writtenKeys]

@[simp]
lemma writtenKeys_saved (cp : Checkpoint) (evs : List Event) :
    writtenKeys (Event.saved cp :: evs) = writtenKeys evs := by
  simp [writtenKeys]

@[simp]
lemma detailKeys_listReq (c : Int) (evs : List Event) :
    detailKeys (Event.listReq c :: evs) = detailKeys evs := by
  simp [detailKeys]

@[simp]
lemma detailKeys_detailReq (k : Json) (evs : List Event) :
    detailKeys (Event.detailReq k :: evs) = k :: detailKeys evs := by
  simp [detailKeys]

@[simp]
lemma detailKeys_slept (s : Nat) (evs : List Event) :
    detailKeys (Event.slept s :: evs) = detailKeys evs := by
  simp [detailKeys]

@[simp]
lemma detailKeys_wrote (k raw t : Json) (evs : List Event) :
    detailKeys (Event.wrote k raw t :: evs) = detailKeys evs := by
  simp [detailKeys]

@[simp]
lemma detailKeys_saved (cp : Checkpoint) (evs : List Event) :
    detailKeys (Event.saved cp :: evs) = detailKeys evs := by
  simp [detailKeys]

@[simp]
lemma savesOf_listReq (c : Int) (evs : List Event) :
    savesOf (Event.listReq c :: evs) = savesOf evs := by
  simp [savesOf]

@[simp]
lemma savesOf_detailReq (k : Json) (evs : List Event) :
    savesOf (Event.detailReq k :: evs) = savesOf evs := by
  simp [savesOf]

@[simp]
lemma savesOf_slept (s : Nat) (evs : List Event) :
    savesOf (Event.slept s :: evs) = savesOf evs := by
  simp [savesOf]

@[simp]
lemma savesOf_wrote (k raw t : Json) (evs : List Event) :
    savesOf (Event.wrote k raw t :: evs) = savesOf evs := by
  simp [savesOf]

@[simp]
lemma savesOf_saved (cp : Checkpoint) (evs : List Event) :
    savesOf (Event.saved cp :: evs) = cp :: savesOf evs := by
  simp [savesOf]

@[simp]
lemma listOffsets_listReq (c : Int) (evs : List Event) :
    listOffsets (Event.listReq c :: evs) = c :: listOffsets evs := by
  simp [listOffsets]

@[simp]
lemma listOffsets_detailReq (k : Json) (evs : List Event) :
    listOffsets (Event.detailReq k :: evs) = listOffsets evs := by
  simp [listOffsets]

@[simp]
lemma listOffsets_slept (s : Nat) (evs : List Event) :
    listOffsets (Event.slept s :: evs) = listOffsets evs := by
  simp [listOffsets]

@[simp]
lemma listOffsets_wrote (k raw t : Json) (evs : List Event) :
    listOffsets (Event.wrote k raw t :: evs) = listOffsets evs := by
  simp [listOffsets]

@[simp]
lemma listOffsets_saved (cp : Checkpoint) (evs : List Event) :
    listOffsets (Event.saved cp :: evs) = listOffsets evs := by
  simp [listOffsets]

@[simp]
lemma sleepsOf_listReq (c : Int) (evs : List Event) :
    sleepsOf (Event.listReq c :: evs) = sleepsOf evs := by
  simp [sleepsOf]

@[simp]
lemma sleepsOf_detailReq (k : Json) (evs : List Event) :
    sleepsOf (Event.detailReq k :: evs) = sleepsOf evs := by
  simp [sleepsOf]

@[simp]
lemma sleepsOf_slept (s : Nat) (evs : List Event) :
    sleepsOf (Event.slept s :: evs) = s :: sleepsOf evs := by
  simp [sleepsOf]

@[simp]
lemma sleepsOf_wrote (k raw t : Json) (evs : List Event) :
    sleepsOf (Event.wrote k raw t :: evs) = sleepsOf evs := by
  simp [sleepsOf]

@[simp]
lemma sleepsOf_saved (cp : Checkpoint) (evs : List Event) :
    sleepsOf (Event.saved cp :: evs) = sleepsOf evs := by
  simp [sleepsOf]

@[simp]
lemma rawLog_listReq (c : Int) (evs : List Event) :
    rawLog (Event.listReq c :: evs) = rawLog evs := by
  simp [rawLog]

@[simp]
lemma rawLog_detailReq (k : Json) (evs : List Event) :
    rawLog (Event.detailReq k :: evs) = rawLog evs := by
  simp [rawLog]

@[simp]
lemma rawLog_slept (s : Nat) (evs : List Event) :
    rawLog (Event.slept s :: evs) = rawLog evs := by
  simp [rawLog]

@[simp]
lemma rawLog_wrote (k raw t : Json) (evs : List Event) :
    rawLog (Event.wrote k raw t :: evs) = raw :: rawLog evs := by
  simp [rawLog]

@[simp]
lemma rawLog_saved (cp : Checkpoint) (evs : List Event) :
    rawLog (Event.saved cp :: evs) = rawLog evs := by
  simp [rawLog]

@[simp]
lemma transformedLog_listReq (c : Int) (evs : List Event) :
    transformedLog (Event.listReq c :: evs) = transformedLog evs := by
  simp [transformedLog]

@[simp]
lemma transformedLog_detailReq (k : Json) (evs : List Event) :
    transformedLog (Event.detailReq k :: evs) = transformedLog evs := by
  simp [transformedLog]

@[simp]
lemma transformedLog_slept (s : Nat) (evs : List Event) :
    transformedLog (Event.slept s :: evs) = transformedLog evs := by
  simp [transformedLog]

@[simp]
lemma transformedLog_wrote (k raw t : Json) (evs : List Event) :
    transformedLog (Event.wrote k raw t :: evs) = t :: transformedLog evs := by
  simp [transformedLog]

@[simp]
lemma transformedLog_saved (cp : Checkpoint) (evs : List Event) :
    transformedLog (Event.saved cp :: evs) = transformedLog evs := by
  simp [transformedLog]

end Scraper

namespace Scraper

/-- A list request answered 429 sleeps per `Retry-After` and re-enters the loop
with cursor, seen set and logs untouched (source lines 185-190). -/
lemma page_step_429 (st : Int) (seen : List Json) (r : HttpResponse)
    (rest : List HttpResponse) (h : r.status = 429) :
    page_step st seen r rest
      = ⟨[.listReq st, .slept (parseRetryAfter r.retryAfter)], .again st seen rest⟩ := by
  simp [page_step, h]

/-- A list request answered 5xx sleeps 10 seconds and re-enters the loop with
state untouched (source lines 191-194). -/
lemma page_step_5xx (st : Int) (seen : List Json) (r : HttpResponse)
    (rest : List HttpResponse) (h1 : r.status ≠ 429) (h2 : 500 ≤ r.status) :
    page_step st seen r rest = ⟨[.listReq st, .slept 10], .again st seen rest⟩ := by
  simp [page_step, h1, h2]

/-- Any other 4xx on the list request raises `HTTPError` (source line 195). -/
lemma page_step_other4xx (st : Int) (seen : List Json) (r : HttpResponse)
    (rest : List HttpResponse) (h1 : r.status ≠ 429) (h2 : ¬500 ≤ r.status)
    (h3 : 400 ≤ r.status) :
    page_step st seen r rest = ⟨[.listReq st], .fail st seen "HTTPError"⟩ := by
  simp [page_step, h1, h2, h3]

lemma page_step_issues_error (st : Int) (seen : List Json) (r : HttpResponse)
    (rest : List HttpResponse) (h1 : r.status ≠ 429) (h2 : ¬500 ≤ r.status)
    (h3 : ¬400 ≤ r.status) {e : String}
    (hiv : pyGet r.body "issues" (.arr .nil) = .error e) :
    page_step st seen r rest = ⟨[.listReq st], .fail st seen e⟩ := by
  simp [page_step, h1, h2, h3, hiv]

/-- An empty (or falsy) issues list breaks out of the loop with no writes and
no save (source lines 203-205). -/
lemma page_step_empty (st : Int) (seen : List Json) (r : HttpResponse)
    (rest : List HttpResponse) (h1 : r.status ≠ 429) (h2 : ¬500 ≤ r.status)
    (h3 : ¬400 ≤ r.status) {iv : Json}
    (hiv : pyGet r.body "issues" (.arr .nil) = .ok iv) (ht : truthy iv = false) :
    page_step st seen r rest = ⟨[.listReq st], .stop st seen⟩ := by
  simp [page_step, h1, h2, h3, hiv, ht]

lemma page_step_iter_error (st : Int) (seen : List Json) (r : HttpResponse)
    (rest : List HttpResponse) (h1 : r.status ≠ 429) (h2 : ¬500 ≤ r.status)
    (h3 : ¬400 ≤ r.status) {iv : Json} {e : String}
    (hiv : pyGet r.body "issues" (.arr .nil) = .ok iv) (ht : truthy iv = true)
    (hit : toIterable iv = .error e) :
    page_step st seen r rest = ⟨[.listReq st], .fail st seen e⟩ := by
  simp [page_step, h1, h2, h3, hiv, ht, hit]

/-- An exception in the per-item loop propagates before anything is written:
the page's logs and checkpoint are untouched (source lines 209-223 with an
uncaught exception). -/
lemma page_step_item_failure (st : Int) (seen : List Json) (r : HttpResponse)
    (rest : List HttpResponse) (h1 : r.status ≠ 429) (h2 : ¬500 ≤ r.status)
    (h3 : ¬400 ≤ r.status) {iv : Json} {items : List Json} {e : String}
    (hiv : pyGet r.body "issues" (.arr .nil) = .ok iv) (ht : truthy iv = true)
    (hit : toIterable iv = .ok items)
    (hfail : (process_items items seen rest).failure = some e) :
    page_step st seen r rest
      = ⟨.listReq st :: (process_items items seen rest).events,
          .fail st (process_items items seen rest).seen e⟩ := by
  simp [page_step, h1, h2, h3, hiv, ht, hit, hfail]

/-- A fully processed page: the staged batches are appended to the logs (in
batch order, raw and transformed in lockstep), then the checkpoint
`(resp.get("startAt", startAt) + len(issues), seen)` is saved, and the loop
stops or continues according to `startAt >= resp.get("total", startAt)`
(source lines 225-235). -/
lemma page_step_processed (st : Int) (seen : List Json) (r : HttpResponse)
    (rest : List HttpResponse) (h1 : r.status ≠ 429) (h2 : ¬500 ≤ r.status)
    (h3 : ¬400 ≤ r.status) {iv saVal : Json} {items : List Json} {sa n : Int}
    (hiv : pyGet r.body "issues" (.arr .nil) = .ok iv) (ht : truthy iv = true)
    (hit : toIterable iv = .ok items)
    (hfail : (process_items items seen rest).failure = none)
    (hsa : pyGet r.body "startAt" (.num st) = .ok saVal)
    (hsa2 : asPyInt saVal = some sa) (hlen : pyLen iv = .ok n) :
    page_step st seen r rest
      = ⟨.listReq st ::
          ((process_items items seen rest).events
            ++ (process_items items seen rest).batch.map
                (fun b => Event.wrote b.1 b.2.1 b.2.2)
            ++ [.saved ⟨sa + n, (process_items items seen rest).seen⟩]),
          totalStep r.body (sa + n) (process_items items seen rest).seen
            (process_items items seen rest).remaining⟩ := by
  simp [page_step, h1, h2, h3, hiv, ht, hit, hfail, hsa, hsa2, hlen,
    List.append_assoc]

end Scraper

namespace Scraper

/-- A non-integer server-reported `startAt` makes line 229 raise after the
logs were written but before the checkpoint is saved. -/
lemma page_step_sa_typeerror (st : Int) (seen : List Json) (r : HttpResponse)
    (rest : List HttpResponse) (h1 : r.status ≠ 429) (h2 : ¬500 ≤ r.status)
    (h3 : ¬400 ≤ r.status) {iv saVal : Json} {items : List Json}
    (hiv : pyGet r.body "issues" (.arr .nil) = .ok iv) (ht : truthy iv = true)
    (hit : toIterable iv = .ok items)
    (hfail : (process_items items seen rest).failure = none)
    (hsa : pyGet r.body "startAt" (.num st) = .ok saVal)
    (hsa2 : asPyInt saVal = none) :
    page_step st seen r rest
      = ⟨.listReq st ::
          ((process_items items seen rest).events
            ++ (process_items items seen rest).batch.map
                (fun b => Event.wrote b.1 b.2.1 b.2.2)),
          .fail st (process_items items seen rest).seen "TypeError"⟩ := by
  simp [page_step, h1, h2, h3, hiv, ht, hit, hfail, hsa, hsa2]

/-- Anything Python can iterate also has a (nonnegative) `len`. -/
lemma toIterable_ok_pyLen {iv : Json} {items : List Json}
    (hit : toIterable iv = .ok items) : ∃ n : Int, pyLen iv = .ok n ∧ 0 ≤ n := by
  cases iv with
  | arr xs => exact ⟨xs.length, rfl, Int.ofNat_nonneg _⟩
  | str s => exact ⟨s.length, rfl, Int.ofNat_nonneg _⟩
  | obj kvs => exact ⟨kvs.length, rfl, Int.ofNat_nonneg _⟩
  | null => simp [toIterable] at hit
  | bool b => simp [toIterable] at hit
  | num n => simp [toIterable] at hit

end Scraper

namespace Scraper

/-- Whatever the server reported as `total`, the loop exit test leaves the
just-saved cursor and seen set as the next state, and only continues (with the
leftover script) or terminates. -/
lemma totalStep_next (body : Json) (c : Int) (s : List Json)
    (rem : List HttpResponse) :
    nextStart (totalStep body c s rem) = c ∧
    nextSeen (totalStep body c s rem) = s ∧
    (∀ st2 seen2 rem2, totalStep body c s rem = .again st2 seen2 rem2 → rem2 = rem) := by
  unfold totalStep
  split
  · exact ⟨rfl, rfl, fun st2 seen2 rem2 h => by simp at h⟩
  split
  · exact ⟨rfl, rfl, fun st2 seen2 rem2 h => by simp at h⟩
  split
  · exact ⟨rfl, rfl, fun st2 seen2 rem2 h => by simp at h⟩
  · refine ⟨rfl, rfl, fun st2 seen2 rem2 h => ?_⟩
    simp only [PageNext.again.injEq] at h
    exact h.2.2.symm

/-- One-page specification used by all run-level invariants: the next seen set
extends the incoming one; the keys written this page are distinct, fresh, and
land in the next seen set; detail requests are only for keys outside the
incoming seen set; the trace respects the write-before-save discipline; any
save contains the incoming seen set; the page saves either nothing (leaving
the cursor at `st`) or exactly the next state; when the response body does not
report a `startAt` the cursor cannot move backwards; and on `again` the
leftover script is a suffix of the incoming one. -/
lemma page_step_spec (st : Int) (seen : List Json) (r : HttpResponse)
    (rest : List HttpResponse) :
    (∃ ext, nextSeen (page_step st seen r rest).next = seen ++ ext) ∧
    (writtenKeys (page_step st seen r rest).events).Nodup ∧
    (∀ k ∈ writtenKeys (page_step st seen r rest).events, k ∉ seen) ∧
    (∀ k ∈ writtenKeys (page_step st seen r rest).events,
      k ∈ nextSeen (page_step st seen r rest).next) ∧
    (∀ k ∈ detailKeys (page_step st seen r rest).events, k ∉ seen) ∧
    (∀ w, (∀ k ∈ w, k ∈ seen) → savesRespectWrites w (page_step st seen r rest).events) ∧
    (∀ cp ∈ savesOf (page_step st seen r rest).events, ∀ k ∈ seen, k ∈ cp.seen) ∧
    (savesOf (page_step st seen r rest).events = [] ∧
        nextStart (page_step st seen r rest).next = st ∨
      savesOf (page_step st seen r rest).events
        = [⟨nextStart (page_step st seen r rest).next,
            nextSeen (page_step st seen r rest).next⟩]) ∧
    (hasKey r.body "startAt" = false → st ≤ nextStart (page_step st seen r rest).next) ∧
    (∀ st2 seen2 rem, (page_step st seen r rest).next = .again st2 seen2 rem →
      rem <:+ rest) := by
  by_cases h429 : r.status = 429
  · rw [page_step_429 st seen r rest h429]
    refine ⟨⟨[], by simp [nextSeen]⟩, by simp, by simp, by simp, by simp,
      fun w hw => savesRespectWrites_no_saves _ (by simp) w, by simp,
      Or.inl ⟨by simp, by simp [nextStart]⟩, fun _ => by simp [nextStart], ?_⟩
    intro st2 seen2 rem h
    simp only [PageNext.again.injEq] at h
    exact h.2.2 ▸ List.suffix_rfl
  by_cases h5 : 500 ≤ r.status
  · rw [page_step_5xx st seen r rest h429 h5]
    refine ⟨⟨[], by simp [nextSeen]⟩, by simp, by simp, by simp, by simp,
      fun w hw => savesRespectWrites_no_saves _ (by simp) w, by simp,
      Or.inl ⟨by simp, by simp [nextStart]⟩, fun _ => by simp [nextStart], ?_⟩
    intro st2 seen2 rem h
    simp only [PageNext.again.injEq] at h
    exact h.2.2 ▸ List.suffix_rfl
  by_cases h4 : 400 ≤ r.status
  · rw [page_step_other4xx st seen r rest h429 h5 h4]
    exact ⟨⟨[], by simp [nextSeen]⟩, by simp, by simp, by simp, by simp,
      fun w hw => savesRespectWrites_no_saves _ (by simp) w, by simp,
      Or.inl ⟨by simp, by simp [nextStart]⟩, fun _ => by simp [nextStart],
      fun st2 seen2 rem h => by simp at h⟩
  cases hiv : pyGet r.body "issues" (Json.arr JList.nil) with
  | error e =>
    rw [page_step_issues_error st seen r rest h429 h5 h4 hiv]
    exact ⟨⟨[], by simp [nextSeen]⟩, by simp, by simp, by simp, by simp,
      fun w hw => savesRespectWrites_no_saves _ (by simp) w, by simp,
      Or.inl ⟨by simp, by simp [nextStart]⟩, fun _ => by simp [nextStart],
      fun st2 seen2 rem h => by simp at h⟩
  | ok iv =>
    cases ht : truthy iv with
    | false =>
      rw [page_step_empty st seen r rest h429 h5 h4 hiv ht]
      exact ⟨⟨[], by simp [nextSeen]⟩, by simp, by simp, by simp, by simp,
        fun w hw => savesRespectWrites_no_saves _ (by simp) w, by simp,
        Or.inl ⟨by simp, by simp [nextStart]⟩, fun _ => by simp [nextStart],
        fun st2 seen2 rem h => by simp at h⟩
    | true =>
      cases hit : toIterable iv with
      | error e =>
        rw [page_step_iter_error st seen r rest h429 h5 h4 hiv ht hit]
        exact ⟨⟨[], by simp [nextSeen]⟩, by simp, by simp, by simp, by simp,
          fun w hw => savesRespectWrites_no_saves _ (by simp) w, by simp,
          Or.inl ⟨by simp, by simp [nextStart]⟩, fun _ => by simp [nextStart],
          fun st2 seen2 rem h => by simp at h⟩
      | ok items =>
        obtain ⟨hs1, hs2, hs3, hs4, hs5, hs6, hs7⟩ := process_items_spec items seen rest
        have hq := quiet_events_nil hs4
        cases hfail : (process_items items seen rest).failure with
        | some e =>
          rw [page_step_item_failure st seen r rest h429 h5 h4 hiv ht hit hfail]
          refine ⟨⟨(process_items items seen rest).batch.map (fun b => b.1),
            by simp [nextSeen, hs1]⟩, by simp [hq.1], by simp [hq.1],
            by simp [hq.1], by simpa using hs5,
            fun w hw => savesRespectWrites_no_saves _ (by simp [hq.2.1]) w,
            by simp [hq.2.1], Or.inl ⟨by simp [hq.2.1], by simp [nextStart]⟩,
            fun _ => by simp [nextStart], fun st2 seen2 rem h => by simp at h⟩
        | none =>
          obtain ⟨kvs, hbody⟩ := pyGet_ok_obj hiv
          have hsa : pyGet r.body "startAt" (.num st)
              = .ok ((lookupField kvs "startAt").getD (.num st)) := by
            rw [hbody]; rfl
          obtain ⟨n, hlen, hn⟩ := toIterable_ok_pyLen hit
          cases hcase : asPyInt ((lookupField kvs "startAt").getD (.num st)) with
          | none =>
            rw [page_step_sa_typeerror st seen r rest h429 h5 h4 hiv ht hit hfail hsa hcase]
            refine ⟨⟨(process_items items seen rest).batch.map (fun b => b.1),
              by simp [nextSeen, hs1]⟩, by simp [hq.1, hs2], ?_, ?_,
              by simpa using hs5,
              fun w hw => savesRespectWrites_no_saves _ (by simp [hq.2.1]) w,
              by simp [hq.2.1], Or.inl ⟨by simp [hq.2.1], by simp [nextStart]⟩,
              fun _ => by simp [nextStart], fun st2 seen2 rem h => by simp at h⟩
            · intro k hk
              simp only [writtenKeys_listReq, writtenKeys_append, hq.1,
                writtenKeys_wrotes, List.nil_append] at hk
              exact hs3 k hk
            · intro k hk
              simp only [writtenKeys_listReq, writtenKeys_append, hq.1,
                writtenKeys_wrotes, List.nil_append] at hk
              simp only [nextSeen, hs1, List.mem_append]
              exact Or.inr hk
          | some sa =>
            have hsk : hasKey r.body "startAt" = false → sa = st := by
              intro hk
              rw [hbody] at hk
              simp only [hasKey] at hk
              cases hlk : lookupField kvs "startAt" with
              | some v => rw [hlk] at hk; simp at hk
              | none =>
                rw [hlk] at hcase
                simp [asPyInt] at hcase
                omega
            rw [page_step_processed st seen r rest h429 h5 h4 hiv ht hit hfail hsa hcase hlen]
            obtain ⟨hts1, hts2, hts3⟩ := totalStep_next r.body (sa + n)
              (process_items items seen rest).seen (process_items items seen rest).remaining
            have hevs :
                writtenKeys (Event.listReq st ::
                  ((process_items items seen rest).events
                    ++ (process_items items seen rest).batch.map
                        (fun b => Event.wrote b.1 b.2.1 b.2.2)
                    ++ [Event.saved ⟨sa + n, (process_items items seen rest).seen⟩]))
                  = (process_items items seen rest).batch.map (fun b => b.1) := by
              simp [hq.1]
            have hsaves :
                savesOf (Event.listReq st ::
                  ((process_items items seen rest).events
                    ++ (process_items items seen rest).batch.map
                        (fun b => Event.wrote b.1 b.2.1 b.2.2)
                    ++ [Event.saved ⟨sa + n, (process_items items seen rest).seen⟩]))
                  = [⟨sa + n, (process_items items seen rest).seen⟩] := by
              simp [hq.2.1]
            refine ⟨⟨(process_items items seen rest).batch.map (fun b => b.1),
              by rw [hts2, hs1]⟩, by simp [hq.1, hs2], ?_, ?_, by simpa using hs5,
              ?_, ?_, ?_, ?_, ?_⟩
            · intro k hk
              rw [hevs] at hk
              exact hs3 k hk
            · intro k hk
              rw [hevs] at hk
              rw [hts2, hs1]
              exact List.mem_append_right _ hk
            · intro w hw
              have key : savesRespectWrites w
                  (((process_items items seen rest).events
                    ++ (process_items items seen rest).batch.map
                        (fun b => Event.wrote b.1 b.2.1 b.2.2))
                    ++ [Event.saved ⟨sa + n, (process_items items seen rest).seen⟩]) := by
                rw [savesRespectWrites_append]
                constructor
                · exact savesRespectWrites_no_saves _ (by simp [hq.2.1]) w
                · show savesRespectWrites _ [Event.saved _]
                  refine ⟨?_, trivial⟩
                  intro k hk
                  rw [hs1]
                  simp only [writtenKeys_append, hq.1, writtenKeys_wrotes,
                    List.nil_append, List.mem_append] at hk
                  rcases hk with hk | hk
                  · exact List.mem_append_left _ (hw k hk)
                  · exact List.mem_append_right _ hk
              show savesRespectWrites w
                  ((process_items items seen rest).events
                    ++ (process_items items seen rest).batch.map
                        (fun b => Event.wrote b.1 b.2.1 b.2.2)
                    ++ [Event.saved ⟨sa + n, (process_items items seen rest).seen⟩])
              exact key
            · intro cp hcp
              rw [hsaves] at hcp
              simp only [List.mem_singleton] at hcp
              subst hcp
              intro k hk
              show k ∈ (process_items items seen rest).seen
              rw [hs1]
              exact List.mem_append_left _ hk
            · refine Or.inr ?_
              rw [hsaves, hts1, hts2]
            · intro hkk
              have hsast := hsk hkk
              rw [hts1]
              omega
            · intro st2 seen2 rem h
              have := hts3 st2 seen2 rem h
              subst this
              exact hs7

end Scraper

namespace Scraper

/-- Chains can be restarted from an earlier point of a transitive relation. -/
lemma chain_weaken {α : Type} {R : α → α → Prop}
    (htr : ∀ a b c, R a b → R b c → R a c) {a b : α} {l : List α}
    (hab : R a b) (h : List.Chain R b l) : List.Chain R a l := by
  cases h with
  | nil => exact List.Chain.nil
  | cons hbc hcl => exact List.Chain.cons (htr _ _ _ hab hbc) hcl

/-- Every event of a page is a list request, a detail request, a sleep, a
write of a transformed pair, or a save; in particular every `wrote` event
pairs a raw record with its transform. -/
lemma page_step_wrote_ok (st : Int) (seen : List Json) (r : HttpResponse)
    (rest : List HttpResponse) :
    ∀ e ∈ (page_step st seen r rest).events, ∀ k raw t,
      e = Event.wrote k raw t → transform_issue_for_llm raw = .ok t := by
  by_cases h429 : r.status = 429
  · rw [page_step_429 st seen r rest h429]; simp
  by_cases h5 : 500 ≤ r.status
  · rw [page_step_5xx st seen r rest h429 h5]; simp
  by_cases h4 : 400 ≤ r.status
  · rw [page_step_other4xx st seen r rest h429 h5 h4]; simp
  cases hiv : pyGet r.body "issues" (Json.arr JList.nil) with
  | error e => rw [page_step_issues_error st seen r rest h429 h5 h4 hiv]; simp
  | ok iv =>
    cases ht : truthy iv with
    | false => rw [page_step_empty st seen r rest h429 h5 h4 hiv ht]; simp
    | true =>
      cases hit : toIterable iv with
      | error e => rw [page_step_iter_error st seen r rest h429 h5 h4 hiv ht hit]; simp
      | ok items =>
        obtain ⟨hs1, hs2, hs3, hs4, hs5, hs6, hs7⟩ := process_items_spec items seen rest
        have hquiet : ∀ e ∈ (process_items items seen rest).events, ∀ k raw t,
            e = Event.wrote k raw t → transform_issue_for_llm raw = .ok t := by
          intro e he k raw t hw
          rcases hs4 e he with ⟨k2, hk⟩ | ⟨s2, hk⟩ <;> rw [hk] at hw <;> simp at hw
        have hwrotes : ∀ e ∈ (process_items items seen rest).batch.map
            (fun b => Event.wrote b.1 b.2.1 b.2.2), ∀ k raw t,
            e = Event.wrote k raw t → transform_issue_for_llm raw = .ok t := by
          intro e he k raw t hw
          simp only [List.mem_map] at he
          obtain ⟨b, hb, hbe⟩ := he
          rw [← hbe] at hw
          simp only [Event.wrote.injEq] at hw
          rw [← hw.2.1, ← hw.2.2]
          exact hs6 b hb
        cases hfail : (process_items items seen rest).failure with
        | some e =>
          rw [page_step_item_failure st seen r rest h429 h5 h4 hiv ht hit hfail]
          intro e2 he2
          simp only [List.mem_cons] at he2
          rcases he2 with he2 | he2
          · subst he2; simp
          · exact hquiet e2 he2
        | none =>
          obtain ⟨kvs, hbody⟩ := pyGet_ok_obj hiv
          have hsa : pyGet r.body "startAt" (.num st)
              = .ok ((lookupField kvs "startAt").getD (.num st)) := by
            rw [hbody]; rfl
          obtain ⟨n, hlen, hn⟩ := toIterable_ok_pyLen hit
          cases hcase : asPyInt ((lookupField kvs "startAt").getD (.num st)) with
          | none =>
            rw [page_step_sa_typeerror st seen r rest h429 h5 h4 hiv ht hit hfail hsa hcase]
            intro e2 he2
            simp only [List.mem_cons, List.mem_append] at he2
            rcases he2 with he2 | he2 | he2
            · subst he2; simp
            · exact hquiet e2 he2
            · exact hwrotes e2 he2
          | some sa =>
            rw [page_step_processed st seen r rest h429 h5 h4 hiv ht hit hfail hsa hcase hlen]
            intro e2 he2 k raw t hw
            subst hw
            rcases List.mem_cons.mp he2 with h0 | h1
            · exact absurd h0 (by simp)
            rcases List.mem_append.mp h1 with h2 | h3
            · rcases List.mem_append.mp h2 with h4 | h5
              · exact hquiet _ h4 k raw t rfl
              · exact hwrotes _ h5 k raw t rfl
            · exact absurd (List.mem_singleton.mp h3) (by simp)

end Scraper

namespace Scraper

/-- Run-level invariant, by induction on the fuel: over any whole run from
`(st, seen)` against any script, the final seen set extends the loaded one;
the keys ever written to the raw log are pairwise distinct and all outside
the loaded seen set; every detail request is for a key outside the loaded
seen set; the trace respects the write-before-save discipline; and every
saved checkpoint contains the loaded seen set. -/
lemma scrape_run_invariant (fuel : Nat) :
    ∀ (st : Int) (seen : List Json) (script : List HttpResponse),
    (∃ ext, (scrape_run fuel st seen script).finalSeen = seen ++ ext) ∧
    (writtenKeys (scrape_run fuel st seen script).events).Nodup ∧
    (∀ k ∈ writtenKeys (scrape_run fuel st seen script).events, k ∉ seen) ∧
    (∀ k ∈ detailKeys (scrape_run fuel st seen script).events, k ∉ seen) ∧
    (∀ w, (∀ k ∈ w, k ∈ seen) →
      savesRespectWrites w (scrape_run fuel st seen script).events) ∧
    (∀ cp ∈ savesOf (scrape_run fuel st seen script).events, ∀ k ∈ seen, k ∈ cp.seen) := by
  induction fuel with
  | zero =>
    intro st seen script
    exact ⟨⟨[], by simp [scrape_run]⟩, by simp [scrape_run], by simp [scrape_run],
      by simp [scrape_run], fun w hw => by simp [scrape_run]; trivial,
      by simp [scrape_run]⟩
  | succ fuel ih =>
    intro st seen script
    cases script with
    | nil =>
      refine ⟨⟨[], by simp [scrape_run]⟩, by simp [scrape_run], by simp [scrape_run],
        by simp [scrape_run], fun w hw => ?_, by simp [scrape_run]⟩
      simp only [scrape_run]
      exact savesRespectWrites_no_saves _ (by simp) w
    | cons r rest =>
      obtain ⟨p1, p2, p3, p4, p5, p6, p7, p8, p9, p10⟩ := page_step_spec st seen r rest
      cases hnext : (page_step st seen r rest).next with
      | again st2 seen2 rem =>
        rw [hnext] at p1 p4
        simp only [nextSeen] at p1 p4
        obtain ⟨ext, hext⟩ := p1
        obtain ⟨i1, i2, i3, i4, i5, i6⟩ := ih st2 seen2 rem
        have hseen_sub : ∀ k ∈ seen, k ∈ seen2 := by
          intro k hk
          rw [hext]
          exact List.mem_append_left _ hk
        have hrun : scrape_run (fuel + 1) st seen (r :: rest)
            = ⟨(page_step st seen r rest).events
                ++ (scrape_run fuel st2 seen2 rem).events,
              (scrape_run fuel st2 seen2 rem).finalStartAt,
              (scrape_run fuel st2 seen2 rem).finalSeen,
              (scrape_run fuel st2 seen2 rem).error⟩ := by
          simp [scrape_run, hnext]
        rw [hrun]
        obtain ⟨ext2, hext2⟩ := i1
        refine ⟨⟨ext ++ ext2, by rw [hext2, hext, List.append_assoc]⟩, ?_, ?_, ?_, ?_, ?_⟩
        · simp only [writtenKeys_append]
          refine List.Nodup.append p2 i2 ?_
          intro a ha hb
          exact i3 a hb (p4 a ha)
        · intro k hk
          simp only [writtenKeys_append, List.mem_append] at hk
          rcases hk with hk | hk
          · exact p3 k hk
          · intro hks
            exact i3 k hk (hseen_sub k hks)
        · intro k hk
          simp only [detailKeys_append, List.mem_append] at hk
          rcases hk with hk | hk
          · exact p5 k hk
          · intro hks
            exact i4 k hk (hseen_sub k hks)
        · intro w hw
          simp only at hw ⊢
          rw [savesRespectWrites_append]
          refine ⟨p6 w hw, i5 _ ?_⟩
          intro k hk
          rcases List.mem_append.mp hk with hk | hk
          · exact hseen_sub k (hw k hk)
          · exact p4 k hk
        · intro cp hcp
          simp only [savesOf_append, List.mem_append] at hcp
          rcases hcp with hcp | hcp
          · exact p7 cp hcp
          · intro k hk
            exact i6 cp hcp k (hseen_sub k hk)
      | stop st2 seen2 =>
        rw [hnext] at p1 p4
        simp only [nextSeen] at p1 p4
        have hrun : scrape_run (fuel + 1) st seen (r :: rest)
            = ⟨(page_step st seen r rest).events, st2, seen2, none⟩ := by
          simp [scrape_run, hnext]
        rw [hrun]
        exact ⟨p1, p2, p3, p5, fun w hw => p6 w hw, p7⟩
      | fail st2 seen2 msg =>
        rw [hnext] at p1 p4
        simp only [nextSeen] at p1 p4
        have hrun : scrape_run (fuel + 1) st seen (r :: rest)
            = ⟨(page_step st seen r rest).events, st2, seen2, some msg⟩ := by
          simp [scrape_run, hnext]
        rw [hrun]
        exact ⟨p1, p2, p3, p5, fun w hw => p6 w hw, p7⟩

end Scraper

namespace Scraper

/-- Unconditionally, the seen sets of the successively saved checkpoints form
a growing chain starting from the loaded seen set. -/
lemma scrape_run_seen_chain (fuel : Nat) :
    ∀ (st : Int) (seen : List Json) (script : List HttpResponse),
    List.Chain (fun a b : Checkpoint => ∀ k ∈ a.seen, k ∈ b.seen) ⟨st, seen⟩
      (savesOf (scrape_run fuel st seen script).events) := by
  have htr : ∀ a b c : Checkpoint, (∀ k ∈ a.seen, k ∈ b.seen) →
      (∀ k ∈ b.seen, k ∈ c.seen) → ∀ k ∈ a.seen, k ∈ c.seen :=
    fun a b c h1 h2 k hk => h2 k (h1 k hk)
  induction fuel with
  | zero => intro st seen script; simp [scrape_run]
  | succ fuel ih =>
    intro st seen script
    cases script with
    | nil => simp [scrape_run]
    | cons r rest =>
      obtain ⟨p1, p2, p3, p4, p5, p6, p7, p8, p9, p10⟩ := page_step_spec st seen r rest
      cases hnext : (page_step st seen r rest).next with
      | again st2 seen2 rem =>
        rw [hnext] at p1 p8
        simp only [nextSeen, nextStart] at p1 p8
        obtain ⟨ext, hext⟩ := p1
        have hseen_sub : ∀ k ∈ seen, k ∈ seen2 := by
          intro k hk
          rw [hext]
          exact List.mem_append_left _ hk
        have hrun : scrape_run (fuel + 1) st seen (r :: rest)
            = ⟨(page_step st seen r rest).events
                ++ (scrape_run fuel st2 seen2 rem).events,
              (scrape_run fuel st2 seen2 rem).finalStartAt,
              (scrape_run fuel st2 seen2 rem).finalSeen,
              (scrape_run fuel st2 seen2 rem).error⟩ := by
          simp [scrape_run, hnext]
        rw [hrun]
        simp only [savesOf_append]
        rcases p8 with ⟨hsv, -⟩ | hsv
        · rw [hsv, List.nil_append]
          exact chain_weaken htr hseen_sub (ih st2 seen2 rem)
        · rw [hsv, List.singleton_append]
          exact List.Chain.cons hseen_sub (ih st2 seen2 rem)
      | stop st2 seen2 =>
        rw [hnext] at p1 p8
        simp only [nextSeen, nextStart] at p1 p8
        obtain ⟨ext, hext⟩ := p1
        have hseen_sub : ∀ k ∈ seen, k ∈ seen2 := by
          intro k hk
          rw [hext]
          exact List.mem_append_left _ hk
        have hrun : scrape_run (fuel + 1) st seen (r :: rest)
            = ⟨(page_step st seen r rest).events, st2, seen2, none⟩ := by
          simp [scrape_run, hnext]
        rw [hrun]
        rcases p8 with ⟨hsv, -⟩ | hsv
        · rw [hsv]; exact List.Chain.nil
        · rw [hsv]
          exact List.Chain.cons hseen_sub List.Chain.nil
      | fail st2 seen2 msg =>
        rw [hnext] at p1 p8
        simp only [nextSeen, nextStart] at p1 p8
        obtain ⟨ext, hext⟩ := p1
        have hseen_sub : ∀ k ∈ seen, k ∈ seen2 := by
          intro k hk
          rw [hext]
          exact List.mem_append_left _ hk
        have hrun : scrape_run (fuel + 1) st seen (r :: rest)
            = ⟨(page_step st seen r rest).events, st2, seen2, some msg⟩ := by
          simp [scrape_run, hnext]
        rw [hrun]
        rcases p8 with ⟨hsv, -⟩ | hsv
        · rw [hsv]; exact List.Chain.nil
        · rw [hsv]
          exact List.Chain.cons hseen_sub List.Chain.nil

/-- When every scripted response omits the `startAt` field (so line 229 falls
back to the request offset), the saved checkpoints form a `cpLe`-chain from
the loaded state: cursors never decrease and seen sets never shrink. -/
lemma scrape_run_cp_chain (fuel : Nat) :
    ∀ (st : Int) (seen : List Json) (script : List HttpResponse),
    (∀ r ∈ script, hasKey r.body "startAt" = false) →
    List.Chain cpLe ⟨st, seen⟩ (savesOf (scrape_run fuel st seen script).events) := by
  have htr : ∀ a b c : Checkpoint, cpLe a b → cpLe b c → cpLe a c :=
    fun a b c h1 h2 =>
      ⟨le_trans h1.1 h2.1, fun k hk => h2.2 k (h1.2 k hk)⟩
  induction fuel with
  | zero => intro st seen script hscript; simp [scrape_run]
  | succ fuel ih =>
    intro st seen script hscript
    cases script with
    | nil => simp [scrape_run]
    | cons r rest =>
      obtain ⟨p1, p2, p3, p4, p5, p6, p7, p8, p9, p10⟩ := page_step_spec st seen r rest
      have hr : hasKey r.body "startAt" = false := hscript r (by simp)
      have hstep := p9 hr
      cases hnext : (page_step st seen r rest).next with
      | again st2 seen2 rem =>
        rw [hnext] at p1 p8 hstep
        simp only [nextSeen, nextStart] at p1 p8 hstep
        obtain ⟨ext, hext⟩ := p1
        have hle : cpLe ⟨st, seen⟩ ⟨st2, seen2⟩ := by
          refine ⟨hstep, fun k hk => ?_⟩
          rw [hext]
          exact List.mem_append_left _ hk
        have hrem : ∀ r2 ∈ rem, hasKey r2.body "startAt" = false := by
          intro r2 hr2
          exact hscript r2 (List.mem_cons_of_mem r ((p10 st2 seen2 rem hnext).subset hr2))
        have hrun : scrape_run (fuel + 1) st seen (r :: rest)
            = ⟨(page_step st seen r rest).events
                ++ (scrape_run fuel st2 seen2 rem).events,
              (scrape_run fuel st2 seen2 rem).finalStartAt,
              (scrape_run fuel st2 seen2 rem).finalSeen,
              (scrape_run fuel st2 seen2 rem).error⟩ := by
          simp [scrape_run, hnext]
        rw [hrun]
        simp only [savesOf_append]
        rcases p8 with ⟨hsv, -⟩ | hsv
        · rw [hsv, List.nil_append]
          exact chain_weaken htr hle (ih st2 seen2 rem hrem)
        · rw [hsv, List.singleton_append]
          exact List.Chain.cons hle (ih st2 seen2 rem hrem)
      | stop st2 seen2 =>
        rw [hnext] at p1 p8 hstep
        simp only [nextSeen, nextStart] at p1 p8 hstep
        obtain ⟨ext, hext⟩ := p1
        have hle : cpLe ⟨st, seen⟩ ⟨st2, seen2⟩ := by
          refine ⟨hstep, fun k hk => ?_⟩
          rw [hext]
          exact List.mem_append_left _ hk
        have hrun : scrape_run (fuel + 1) st seen (r :: rest)
            = ⟨(page_step st seen r rest).events, st2, seen2, none⟩ := by
          simp [scrape_run, hnext]
        rw [hrun]
        rcases p8 with ⟨hsv, -⟩ | hsv
        · rw [hsv]; exact List.Chain.nil
        · rw [hsv]
          exact List.Chain.cons hle List.Chain.nil
      | fail st2 seen2 msg =>
        rw [hnext] at p1 p8 hstep
        simp only [nextSeen, nextStart] at p1 p8 hstep
        obtain ⟨ext, hext⟩ := p1
        have hle : cpLe ⟨st, seen⟩ ⟨st2, seen2⟩ := by
          refine ⟨hstep, fun k hk => ?_⟩
          rw [hext]
          exact List.mem_append_left _ hk
        have hrun : scrape_run (fuel + 1) st seen (r :: rest)
            = ⟨(page_step st seen r rest).events, st2, seen2, some msg⟩ := by
          simp [scrape_run, hnext]
        rw [hrun]
        rcases p8 with ⟨hsv, -⟩ | hsv
        · rw [hsv]; exact List.Chain.nil
        · rw [hsv]
          exact List.Chain.cons hle List.Chain.nil

/-- Every `wrote` event of a whole run pairs a raw record with its
transform. -/
lemma scrape_run_wrote_ok (fuel : Nat) :
    ∀ (st : Int) (seen : List Json) (script : List HttpResponse),
    ∀ e ∈ (scrape_run fuel st seen script).events, ∀ k raw t,
      e = Event.wrote k raw t → transform_issue_for_llm raw = .ok t := by
  induction fuel with
  | zero => intro st seen script; simp [scrape_run]
  | succ fuel ih =>
    intro st seen script
    cases script with
    | nil => simp [scrape_run]
    | cons r rest =>
      cases hnext : (page_step st seen r rest).next with
      | again st2 seen2 rem =>
        have hrun : scrape_run (fuel + 1) st seen (r :: rest)
            = ⟨(page_step st seen r rest).events
                ++ (scrape_run fuel st2 seen2 rem).events,
              (scrape_run fuel st2 seen2 rem).finalStartAt,
              (scrape_run fuel st2 seen2 rem).finalSeen,
              (scrape_run fuel st2 seen2 rem).error⟩ := by
          simp [scrape_run, hnext]
        rw [hrun]
        intro e he
        rcases List.mem_append.mp he with he | he
        · exact page_step_wrote_ok st seen r rest e he
        · exact ih st2 seen2 rem e he
      | stop st2 seen2 =>
        have hrun : scrape_run (fuel + 1) st seen (r :: rest)
            = ⟨(page_step st seen r rest).events, st2, seen2, none⟩ := by
          simp [scrape_run, hnext]
        rw [hrun]
        exact fun e he => page_step_wrote_ok st seen r rest e he
      | fail st2 seen2 msg =>
        have hrun : scrape_run (fuel + 1) st seen (r :: rest)
            = ⟨(page_step st seen r rest).events, st2, seen2, some msg⟩ := by
          simp [scrape_run, hnext]
        rw [hrun]
        exact fun e he => page_step_wrote_ok st seen r rest e he

/-- Traces whose `wrote` events pair records with their transforms give raw
and transformed logs in pointwise transform correspondence. -/
lemma rawLog_transformedLog_forall2 (evs : List Event)
    (h : ∀ e ∈ evs, ∀ k raw t, e = Event.wrote k raw t →
      transform_issue_for_llm raw = .ok t) :
    List.Forall₂ (fun raw t => transform_issue_for_llm raw = .ok t)
      (rawLog evs) (transformedLog evs) := by
  induction evs with
  | nil => exact List.Forall₂.nil
  | cons e rest ih =>
    have hrest := ih fun e2 he2 => h e2 (List.mem_cons_of_mem e he2)
    cases e with
    | wrote k raw t =>
      simp only [rawLog_wrote, transformedLog_wrote]
      exact List.Forall₂.cons (h _ (by simp) k raw t rfl) hrest
    | listReq c => simpa using hrest
    | detailReq k => simpa using hrest
    | slept s => simpa using hrest
    | saved cp => simpa using hrest

end Scraper

namespace Scraper

@[simp]
lemma JList.toList_ofList (l : List Json) : (JList.ofList l).toList = l := by
  induction l with
  | nil => rfl
  | cons x rest ih => simp [JList.ofList, JList.toList, ih]

@[simp]
lemma JList.length_ofList (l : List Json) : (JList.ofList l).length = l.length := by
  induction l with
  | nil => rfl
  | cons x rest ih => simp [JList.ofList, JList.length, ih]

lemma ceilDiv_pos_le {a P : Nat} (hP : 0 < P) (h0 : 0 < a) (h1 : a ≤ P) :
    ceilDiv a P = 1 := by
  unfold ceilDiv
  exact Nat.div_eq_of_lt_le (by omega) (by omega)

lemma ceilDiv_sub {a P : Nat} (hP : 0 < P) (ha : P < a) :
    ceilDiv (a - P) P = ceilDiv a P - 1 := by
  unfold ceilDiv
  have h1 : a - P + P - 1 = a - 1 := by omega
  have h2 : a + P - 1 = (a - 1) + P := by omega
  rw [h1, h2, Nat.add_div_right _ hP]
  simp

lemma ceilDiv_zero_of (P : Nat) : ceilDiv 0 P = 0 := by
  unfold ceilDiv
  rcases Nat.eq_zero_or_pos P with h | h
  · simp [h]
  · exact Nat.div_eq_of_lt (by omega)

lemma ceilDiv_ne_zero {a P : Nat} (hP : 0 < P) (h0 : 0 < a) : ceilDiv a P ≠ 0 := by
  unfold ceilDiv
  intro h
  rw [Nat.div_eq_zero_iff (by omega)] at h
  omega

/-- The per-item loop over a faithful page: distinct fresh numeric keys, each
detail request answered in order.  It succeeds, consumes exactly its page's
detail responses, and grows `seen` only by the page's keys. -/
lemma process_faithful : ∀ (is : List Nat) (seen : List Json) (rest : List HttpResponse),
    is.Nodup → (∀ i ∈ is, Json.num (i : Int) ∉ seen) →
    (process_items (is.map summaryFor) seen (is.map detailRespFor ++ rest)).failure
      = none ∧
    (process_items (is.map summaryFor) seen (is.map detailRespFor ++ rest)).remaining
      = rest ∧
    (∀ k ∈ (process_items (is.map summaryFor) seen
        (is.map detailRespFor ++ rest)).seen,
      k ∈ seen ∨ ∃ i ∈ is, k = Json.num (i : Int)) := by
  intro is
  induction is with
  | nil => intro seen rest hnd hfresh; simp [process_items]
  | cons i more ih =>
    intro seen rest hnd hfresh
    have hkey : pyGet (summaryFor i) "key" .null = .ok (.num (i : Int)) := rfl
    have hnotseen : Json.num (i : Int) ∉ seen := hfresh i (by simp)
    have hfetch : fetch_issue (Json.num (i : Int))
        (detailRespFor i :: (more.map detailRespFor ++ rest))
        = ⟨[Event.detailReq (Json.num (i : Int))],
            .ok (Json.objL [("key", .num (i : Int))]), 1,
            more.map detailRespFor ++ rest⟩ := by
      simp [fetch_issue, detailRespFor]
    have htr : ∃ t, transform_issue_for_llm (Json.objL [("key", .num (i : Int))])
        = .ok t := ⟨_, rfl⟩
    obtain ⟨t, htr⟩ := htr
    have hstep : process_items ((i :: more).map summaryFor) seen
        ((i :: more).map detailRespFor ++ rest)
        = ⟨[Event.detailReq (Json.num (i : Int))]
            ++ (process_items (more.map summaryFor) (seen ++ [Json.num (i : Int)])
                (more.map detailRespFor ++ rest)).events,
          (process_items (more.map summaryFor) (seen ++ [Json.num (i : Int)])
            (more.map detailRespFor ++ rest)).seen,
          (Json.num (i : Int), Json.objL [("key", .num (i : Int))], t)
            :: (process_items (more.map summaryFor) (seen ++ [Json.num (i : Int)])
                (more.map detailRespFor ++ rest)).batch,
          (process_items (more.map summaryFor) (seen ++ [Json.num (i : Int)])
            (more.map detailRespFor ++ rest)).remaining,
          (process_items (more.map summaryFor) (seen ++ [Json.num (i : Int)])
            (more.map detailRespFor ++ rest)).failure⟩ := by
      simp only [List.map_cons, List.cons_append, process_items, hkey]
      rw [if_neg hnotseen]
      rw [hfetch]
      simp [htr]
    have hfresh2 : ∀ j ∈ more, Json.num (j : Int) ∉ seen ++ [Json.num (i : Int)] := by
      intro j hj
      simp only [List.mem_append, List.mem_singleton, Json.num.injEq]
      push_neg
      refine ⟨hfresh j (by simp [hj]), ?_⟩
      intro hcast
      have : j = i := by exact_mod_cast hcast
      exact (List.nodup_cons.mp hnd).1 (this ▸ hj)
    obtain ⟨ih1, ih2, ih3⟩ := ih (seen ++ [Json.num (i : Int)])
      rest (List.nodup_cons.mp hnd).2 hfresh2
    rw [hstep]
    refine ⟨ih1, ih2, ?_⟩
    intro k hk
    rcases ih3 k hk with hk2 | ⟨j, hj, hk2⟩
    · rcases List.mem_append.mp hk2 with hk3 | hk3
      · exact Or.inl hk3
      · exact Or.inr ⟨i, by simp, List.mem_singleton.mp hk3⟩
    · exact Or.inr ⟨j, by simp [hj], hk2⟩

end Scraper

namespace Scraper

lemma truthy_arrL (l : List Json) : truthy (Json.arrL l) = !l.isEmpty := by
  cases l <;> rfl

/-- A crawl from offset `c < T` with an empty-enough seen set against the
faithful server's remaining script issues exactly `ceilDiv (T - c) P` list
requests, ends with cursor exactly `T`, and raises nothing. -/
lemma faithful_run (T P : Nat) (hP : 0 < P) :
    ∀ (k c : Nat) (seen : List Json) (fuel : Nat),
    c < T → ceilDiv (T - c) P = k →
    (∀ i : Nat, c ≤ i → Json.num (i : Int) ∉ seen) →
    (faithfulScript k c T P).length < fuel →
    (listOffsets (scrape_run fuel (c : Int) seen (faithfulScript k c T P)).events).length
        = k ∧
    (scrape_run fuel (c : Int) seen (faithfulScript k c T P)).finalStartAt = (T : Int) ∧
    (scrape_run fuel (c : Int) seen (faithfulScript k c T P)).error = none := by
  intro k
  induction k with
  | zero =>
    intro c seen fuel hc hk hseen hfuel
    exact absurd hk (ceilDiv_ne_zero hP (by omega))
  | succ k ih =>
    intro c seen fuel hc hk hseen hfuel
    cases fuel with
    | zero => exact absurd hfuel (Nat.not_lt_zero _)
    | succ fl =>
      have hm1 : 1 ≤ min P (T - c) := by omega
      have hmle : min P (T - c) ≤ T - c := Nat.min_le_right _ _
      have hscript : faithfulScript (k + 1) c T P
          = listRespAt c T P :: ((List.range' c (min P (T - c))).map detailRespFor
            ++ faithfulScript k (c + min P (T - c)) T P) := rfl
      have hst : (listRespAt c T P).status = 200 := rfl
      have h429 : (listRespAt c T P).status ≠ 429 := by rw [hst]; decide
      have h5 : ¬500 ≤ (listRespAt c T P).status := by rw [hst]; decide
      have h4 : ¬400 ≤ (listRespAt c T P).status := by rw [hst]; decide
      have hiv : pyGet (listRespAt c T P).body "issues" (.arr .nil)
          = .ok (Json.arrL ((List.range' c (min P (T - c))).map summaryFor)) := rfl
      have ht : truthy (Json.arrL ((List.range' c (min P (T - c))).map summaryFor))
          = true := by
        simp [truthy_arrL, List.isEmpty_iff, List.map_eq_nil_iff, List.range'_eq_nil]
        omega
      have hit : toIterable (Json.arrL ((List.range' c (min P (T - c))).map summaryFor))
          = .ok ((List.range' c (min P (T - c))).map summaryFor) := by
        simp [toIterable, Json.arrL]
      have hnd : (List.range' c (min P (T - c))).Nodup :=
        List.nodup_range' _ _ _ Nat.one_pos
      have hfresh : ∀ i ∈ List.range' c (min P (T - c)), Json.num (i : Int) ∉ seen := by
        intro i hi
        rw [List.mem_range'_1] at hi
        exact hseen i hi.1
      obtain ⟨hpf1, hpf2, hpf3⟩ := process_faithful (List.range' c (min P (T - c))) seen
        (faithfulScript k (c + min P (T - c)) T P) hnd hfresh
      obtain ⟨hs1, hs2, hs3, hs4, hs5, hs6, hs7⟩ :=
        process_items_spec ((List.range' c (min P (T - c))).map summaryFor) seen
          ((List.range' c (min P (T - c))).map detailRespFor
            ++ faithfulScript k (c + min P (T - c)) T P)
      have hq := quiet_events_nil hs4
      have hsa : pyGet (listRespAt c T P).body "startAt" (.num (c : Int))
          = .ok (.num (c : Int)) := rfl
      have hsa2 : asPyInt (Json.num (c : Int)) = some (c : Int) := rfl
      have hlen : pyLen (Json.arrL ((List.range' c (min P (T - c))).map summaryFor))
          = .ok ((min P (T - c) : Nat) : Int) := by
        simp [pyLen, Json.arrL]
      have hpage := page_step_processed (c : Int) seen (listRespAt c T P)
        ((List.range' c (min P (T - c))).map detailRespFor
          ++ faithfulScript k (c + min P (T - c)) T P)
        h429 h5 h4 hiv ht hit hpf1 hsa hsa2 hlen
      have hevs : listOffsets (page_step (c : Int) seen (listRespAt c T P)
          ((List.range' c (min P (T - c))).map detailRespFor
            ++ faithfulScript k (c + min P (T - c)) T P)).events = [(c : Int)] := by
        rw [hpage]
        simp [hq.2.2.1]
      have htotal : totalStep (listRespAt c T P).body
          ((c : Int) + ((min P (T - c) : Nat) : Int))
          (process_items ((List.range' c (min P (T - c))).map summaryFor) seen
            ((List.range' c (min P (T - c))).map detailRespFor
              ++ faithfulScript k (c + min P (T - c)) T P)).seen
          (process_items ((List.range' c (min P (T - c))).map summaryFor) seen
            ((List.range' c (min P (T - c))).map detailRespFor
              ++ faithfulScript k (c + min P (T - c)) T P)).remaining
          = if (T : Int) ≤ (c : Int) + ((min P (T - c) : Nat) : Int) then
              PageNext.stop ((c : Int) + ((min P (T - c) : Nat) : Int))
                (process_items ((List.range' c (min P (T - c))).map summaryFor) seen
                  ((List.range' c (min P (T - c))).map detailRespFor
                    ++ faithfulScript k (c + min P (T - c)) T P)).seen
            else
              PageNext.again ((c : Int) + ((min P (T - c) : Nat) : Int))
                (process_items ((List.range' c (min P (T - c))).map summaryFor) seen
                  ((List.range' c (min P (T - c))).map detailRespFor
                    ++ faithfulScript k (c + min P (T - c)) T P)).seen
                (process_items ((List.range' c (min P (T - c))).map summaryFor) seen
                  ((List.range' c (min P (T - c))).map detailRespFor
                    ++ faithfulScript k (c + min P (T - c)) T P)).remaining := rfl
      by_cases hstop : T ≤ c + min P (T - c)
      · -- final page: the server total is reached
        have hklast : k = 0 := by
          have : ceilDiv (T - c) P = 1 := ceilDiv_pos_le hP (by omega) (by omega)
          omega
        have hcast : (T : Int) ≤ (c : Int) + ((min P (T - c) : Nat) : Int) := by
          exact_mod_cast hstop
        have hnext : (page_step (c : Int) seen (listRespAt c T P)
            ((List.range' c (min P (T - c))).map detailRespFor
              ++ faithfulScript k (c + min P (T - c)) T P)).next
            = PageNext.stop ((c : Int) + ((min P (T - c) : Nat) : Int))
              (process_items ((List.range' c (min P (T - c))).map summaryFor) seen
                ((List.range' c (min P (T - c))).map detailRespFor
                  ++ faithfulScript k (c + min P (T - c)) T P)).seen := by
          rw [hpage]
          exact htotal.trans (if_pos hcast)
        have hrun : scrape_run (fl + 1) (c : Int) seen (faithfulScript (k + 1) c T P)
            = ⟨(page_step (c : Int) seen (listRespAt c T P)
                ((List.range' c (min P (T - c))).map detailRespFor
                  ++ faithfulScript k (c + min P (T - c)) T P)).events,
              (c : Int) + ((min P (T - c) : Nat) : Int),
              (process_items ((List.range' c (min P (T - c))).map summaryFor) seen
                ((List.range' c (min P (T - c))).map detailRespFor
                  ++ faithfulScript k (c + min P (T - c)) T P)).seen, none⟩ := by
          rw [hscript]
          simp [scrape_run, hnext]
        rw [hrun]
        refine ⟨by rw [hevs]; simp [hklast], ?_, rfl⟩
        have hmeq : min P (T - c) = T - c := by omega
        rw [hmeq]
        have : (((T - c : Nat)) : Int) = (T : Int) - (c : Int) := by
          push_cast [Nat.cast_sub (le_of_lt hc)]
          ring
        rw [this]
        ring
      · -- full page: continue at offset c + P
        have hmP : min P (T - c) = P := by omega
        have hncast : ¬((T : Int) ≤ (c : Int) + ((min P (T - c) : Nat) : Int)) := by
          intro hcon
          exact hstop (by exact_mod_cast hcon)
        have hnext : (page_step (c : Int) seen (listRespAt c T P)
            ((List.range' c (min P (T - c))).map detailRespFor
              ++ faithfulScript k (c + min P (T - c)) T P)).next
            = PageNext.again ((c : Int) + ((min P (T - c) : Nat) : Int))
              (process_items ((List.range' c (min P (T - c))).map summaryFor) seen
                ((List.range' c (min P (T - c))).map detailRespFor
                  ++ faithfulScript k (c + min P (T - c)) T P)).seen
              (process_items ((List.range' c (min P (T - c))).map summaryFor) seen
                ((List.range' c (min P (T - c))).map detailRespFor
                  ++ faithfulScript k (c + min P (T - c)) T P)).remaining := by
          rw [hpage]
          exact htotal.trans (if_neg hncast)
        have hrun : scrape_run (fl + 1) (c : Int) seen (faithfulScript (k + 1) c T P)
            = ⟨(page_step (c : Int) seen (listRespAt c T P)
                ((List.range' c (min P (T - c))).map detailRespFor
                  ++ faithfulScript k (c + min P (T - c)) T P)).events
                ++ (scrape_run fl ((c : Int) + ((min P (T - c) : Nat) : Int))
                  (process_items ((List.range' c (min P (T - c))).map summaryFor) seen
                    ((List.range' c (min P (T - c))).map detailRespFor
                      ++ faithfulScript k (c + min P (T - c)) T P)).seen
                  (process_items ((List.range' c (min P (T - c))).map summaryFor) seen
                    ((List.range' c (min P (T - c))).map detailRespFor
                      ++ faithfulScript k (c + min P (T - c)) T P)).remaining).events,
              (scrape_run fl ((c : Int) + ((min P (T - c) : Nat) : Int))
                (process_items ((List.range' c (min P (T - c))).map summaryFor) seen
                  ((List.range' c (min P (T - c))).map detailRespFor
                    ++ faithfulScript k (c + min P (T - c)) T P)).seen
                (process_items ((List.range' c (min P (T - c))).map summaryFor) seen
                  ((List.range' c (min P (T - c))).map detailRespFor
                    ++ faithfulScript k (c + min P (T - c)) T P)).remaining).finalStartAt,
              (scrape_run fl ((c : Int) + ((min P (T - c) : Nat) : Int))
                (process_items ((List.range' c (min P (T - c))).map summaryFor) seen
                  ((List.range' c (min P (T - c))).map detailRespFor
                    ++ faithfulScript k (c + min P (T - c)) T P)).seen
                (process_items ((List.range' c (min P (T - c))).map summaryFor) seen
                  ((List.range' c (min P (T - c))).map detailRespFor
                    ++ faithfulScript k (c + min P (T - c)) T P)).remaining).finalSeen,
              (scrape_run fl ((c : Int) + ((min P (T - c) : Nat) : Int))
                (process_items ((List.range' c (min P (T - c))).map summaryFor) seen
                  ((List.range' c (min P (T - c))).map detailRespFor
                    ++ faithfulScript k (c + min P (T - c)) T P)).seen
                (process_items ((List.range' c (min P (T - c))).map summaryFor) seen
                  ((List.range' c (min P (T - c))).map detailRespFor
                    ++ faithfulScript k (c + min P (T - c)) T P)).remaining).error⟩ := by
          rw [hscript]
          simp [scrape_run, hnext]
        have hseen2 : ∀ i : Nat, c + P ≤ i →
            Json.num (i : Int) ∉ (process_items
              ((List.range' c (min P (T - c))).map summaryFor) seen
              ((List.range' c (min P (T - c))).map detailRespFor
                ++ faithfulScript k (c + min P (T - c)) T P)).seen := by
          intro i hi hmem
          rcases hpf3 _ hmem with hmem2 | ⟨j, hj, hje⟩
          · exact hseen i (by omega) hmem2
          · rw [List.mem_range'_1] at hj
            have hij : i = j := by exact_mod_cast Json.num.inj hje
            omega
        have hidx : c + min P (T - c) = c + P := by omega
        have hca : ((c : Int) + ((min P (T - c) : Nat) : Int)) = (((c + P : Nat)) : Int) := by
          rw [hmP]
          push_cast
          ring
        rw [hidx] at hpf2 hseen2 hrun hevs
        rw [hca, hpf2] at hrun
        have hflen : (faithfulScript k (c + P) T P).length < fl := by
          rw [hscript] at hfuel
          simp only [List.length_cons, List.length_append, List.length_map] at hfuel
          rw [hidx] at hfuel
          omega
        obtain ⟨ih1, ih2, ih3⟩ := ih (c + P)
          (process_items ((List.range' c (min P (T - c))).map summaryFor) seen
            ((List.range' c (min P (T - c))).map detailRespFor
              ++ faithfulScript k (c + P) T P)).seen fl
          (by omega)
          (by
            rw [show T - (c + P) = T - c - P from by omega,
              ceilDiv_sub hP (by omega), hk]
            omega)
          hseen2 hflen
        rw [hrun]
        refine ⟨?_, ih2, ih3⟩
        simp only [listOffsets_append, List.length_append, hevs, ih1, List.length_singleton]
        omega

end Scraper

namespace Scraper

lemma except_bind_ok {ε α β : Type} (a : α) (f : α → Except ε β) :
    (Except.ok (ε := ε) a >>= f) = f a := rfl

lemma commentText_ok (c : Json) (h : wellShapedComment c = true) :
    ∃ s, commentText c = .ok s := by
  cases c with
  | obj kvs =>
    unfold commentText
    cases ha : lookupField kvs "author" with
    | none =>
      simp only [pyGet, ha, Option.getD_none, except_bind_ok]
      exact ⟨_, rfl⟩
    | some v =>
      cases v with
      | obj aks =>
        simp only [pyGet, ha, Option.getD_some, except_bind_ok]
        exact ⟨_, rfl⟩
      | null => simp [wellShapedComment, objOrMissing, ha] at h
      | bool b => simp [wellShapedComment, objOrMissing, ha] at h
      | num n => simp [wellShapedComment, objOrMissing, ha] at h
      | str s => simp [wellShapedComment, objOrMissing, ha] at h
      | arr xs => simp [wellShapedComment, objOrMissing, ha] at h
  | null => simp [wellShapedComment] at h
  | bool b => simp [wellShapedComment] at h
  | num n => simp [wellShapedComment] at h
  | str s => simp [wellShapedComment] at h
  | arr xs => simp [wellShapedComment] at h

lemma mapM_commentText_ok (cs : List Json)
    (h : ∀ c ∈ cs, wellShapedComment c = true) :
    ∃ ts, cs.mapM commentText = .ok ts := by
  induction cs with
  | nil => exact ⟨[], rfl⟩
  | cons c rest ih =>
    obtain ⟨s, hs⟩ := commentText_ok c (h c (by simp))
    obtain ⟨ts, hts⟩ := ih fun c2 hc2 => h c2 (by simp [hc2])
    refine ⟨s :: ts, ?_⟩
    rw [List.mapM_cons, hs, hts]
    rfl

end Scraper

namespace Scraper

lemma pyGet_objOrMissing {fs : JFields} {key : String} (k2 : String) (d : Json)
    (h : objOrMissing fs key = true) :
    ∃ v, pyGet ((lookupField fs key).getD (.obj .nil)) k2 d = .ok v := by
  unfold objOrMissing at h
  cases hl : lookupField fs key with
  | none => exact ⟨_, rfl⟩
  | some v =>
    simp only [hl] at h
    cases v with
    | obj vks => exact ⟨_, rfl⟩
    | null => simp at h
    | bool b => simp at h
    | num n => simp at h
    | str s => simp at h
    | arr xs => simp at h

lemma pyGet_objOrFalsy {fs : JFields} {key : String} (k2 : String) (d : Json)
    (h : objOrFalsy fs key = true) :
    ∃ v, pyGet (pyOr ((lookupField fs key).getD .null) (.obj .nil)) k2 d = .ok v := by
  unfold objOrFalsy at h
  cases hl : lookupField fs key with
  | none => exact ⟨_, rfl⟩
  | some v =>
    simp only [hl] at h
    simp only [Option.getD_some]
    cases hpo : pyOr v (.obj .nil) with
    | obj vks => exact ⟨_, rfl⟩
    | null => simp [hpo] at h
    | bool b => simp [hpo] at h
    | num n => simp [hpo] at h
    | str s => simp [hpo] at h
    | arr xs => simp [hpo] at h

/-- C6 (amended): on every record whose present fields have the shapes the
real Jira API produces — `fields`, `project`, `issuetype`, `status`,
`comment` and comment `author`s are objects when present, the comment list is
a list when present, and `priority` / `reporter` / `assignee` are objects or
null/falsy when present — `transform_issue_for_llm` returns a normalized
record without raising; in particular every missing (absent-key) optional
field falls back to an empty default rather than failing.  (The embedding is
a pure Lean function, so freedom from I/O and shared-state mutation holds by
construction.)  The counterexample `transform_null_status_counterexample`
shows why the shape condition on present values is necessary. -/
theorem transform_wellShaped_total (issue : Json)
    (h : wellShapedIssue issue = true) :
    exceptOk (transform_issue_for_llm issue) = true := by
  cases issue with
  | obj top =>
    cases hf : (lookupField top "fields").getD (.obj .nil) with
    | obj fs =>
      simp only [wellShapedIssue, hf] at h
      cases hcf : (lookupField fs "comment").getD (.obj .nil) with
      | obj cf =>
        simp only [hcf] at h
        cases hcm : (lookupField cf "comments").getD (.arr .nil) with
        | arr cs =>
          simp only [hcm] at h
          obtain ⟨⟨⟨⟨⟨⟨hall, hproj⟩, hitype⟩, hstat⟩, hprio⟩, hrep⟩, hass⟩ :=
            (by simpa only [Bool.and_eq_true] using h :
              ((((((cs.toList.all wellShapedComment = true) ∧
                objOrMissing fs "project" = true) ∧
                objOrMissing fs "issuetype" = true) ∧
                objOrMissing fs "status" = true) ∧
                objOrFalsy fs "priority" = true) ∧
                objOrFalsy fs "reporter" = true) ∧
                objOrFalsy fs "assignee" = true)
          obtain ⟨ts, hts⟩ := mapM_commentText_ok cs.toList
            (fun c hc => List.all_eq_true.mp hall c hc)
          obtain ⟨pv, hpv⟩ := pyGet_objOrMissing "key" .null hproj
          obtain ⟨iv2, hiv2⟩ := pyGet_objOrMissing "name" .null hitype
          obtain ⟨sv, hsv⟩ := pyGet_objOrMissing "name" .null hstat
          obtain ⟨prv, hprv⟩ := pyGet_objOrFalsy "name" .null hprio
          obtain ⟨rv, hrv⟩ := pyGet_objOrFalsy "displayName" .null hrep
          obtain ⟨av, hav⟩ := pyGet_objOrFalsy "displayName" .null hass
          have h1 : pyGet (Json.obj top) "fields" (.obj .nil) = .ok (Json.obj fs) := by
            simp [pyGet, hf]
          have h2 : pyGet (Json.obj fs) "comment" (.obj .nil) = .ok (Json.obj cf) := by
            simp [pyGet, hcf]
          have h3 : pyGet (Json.obj cf) "comments" (.arr .nil) = .ok (Json.arr cs) := by
            simp [pyGet, hcm]
          have h4 : toIterable (Json.arr cs) = .ok cs.toList := rfl
          have hd : pyGet (Json.obj fs) "description" .null
              = .ok ((lookupField fs "description").getD .null) := rfl
          have hsum : pyGet (Json.obj fs) "summary" .null
              = .ok ((lookupField fs "summary").getD .null) := rfl
          have hkey : pyGet (Json.obj top) "key" .null
              = .ok ((lookupField top "key").getD .null) := rfl
          have hproj1 : pyGet (Json.obj fs) "project" (.obj .nil)
              = .ok ((lookupField fs "project").getD (.obj .nil)) := rfl
          have hit1 : pyGet (Json.obj fs) "issuetype" (.obj .nil)
              = .ok ((lookupField fs "issuetype").getD (.obj .nil)) := rfl
          have hst1 : pyGet (Json.obj fs) "status" (.obj .nil)
              = .ok ((lookupField fs "status").getD (.obj .nil)) := rfl
          have hpr1 : pyGet (Json.obj fs) "priority" .null
              = .ok ((lookupField fs "priority").getD .null) := rfl
          have hre1 : pyGet (Json.obj fs) "reporter" .null
              = .ok ((lookupField fs "reporter").getD .null) := rfl
          have has1 : pyGet (Json.obj fs) "assignee" .null
              = .ok ((lookupField fs "assignee").getD .null) := rfl
          have hlab : pyGet (Json.obj fs) "labels" (.arr .nil)
              = .ok ((lookupField fs "labels").getD (.arr .nil)) := rfl
          have hcre : pyGet (Json.obj fs) "created" .null
              = .ok ((lookupField fs "created").getD .null) := rfl
          have hupd : pyGet (Json.obj fs) "updated" .null
              = .ok ((lookupField fs "updated").getD .null) := rfl
          have hid : pyGet (Json.obj top) "id" .null
              = .ok ((lookupField top "id").getD .null) := rfl
          simp only [transform_issue_for_llm, h1, except_bind_ok, h2, h3, h4, hts,
            hd, hsum, hkey, hproj1, hpv, hit1, hiv2, hst1, hsv, hpr1, hprv,
            hre1, hrv, has1, hav, hlab, hcre, hupd, hid, exceptOk]
        | null => simp [hcm] at h
        | bool b => simp [hcm] at h
        | num n => simp [hcm] at h
        | str s => simp [hcm] at h
        | obj o => simp [hcm] at h
      | null => simp [hcf] at h
      | bool b => simp [hcf] at h
      | num n => simp [hcf] at h
      | str s => simp [hcf] at h
      | arr xs => simp [hcf] at h
    | null => simp [wellShapedIssue, hf] at h
    | bool b => simp [wellShapedIssue, hf] at h
    | num n => simp [wellShapedIssue, hf] at h
    | str s => simp [wellShapedIssue, hf] at h
    | arr xs => simp [wellShapedIssue, hf] at h
  | null => simp [wellShapedIssue] at h
  | bool b => simp [wellShapedIssue] at h
  | num n => simp [wellShapedIssue] at h
  | str s => simp [wellShapedIssue] at h
  | arr xs => simp [wellShapedIssue] at h

end Scraper
namespace Scraper

/- Helper for C10: whatever branch a loop iteration takes, the first thing it
does is issue the list request. -/
lemma page_step_events_head (st : Int) (seen : List Json) (r : HttpResponse)
    (rest : List HttpResponse) :
    ∃ tl, (page_step st seen r rest).events = Event.listReq st :: tl := by
  by_cases h429 : r.status = 429
  · rw [page_step_429 st seen r rest h429]; exact ⟨_, rfl⟩
  by_cases h5 : 500 ≤ r.status
  · rw [page_step_5xx st seen r rest h429 h5]; exact ⟨_, rfl⟩
  by_cases h4 : 400 ≤ r.status
  · rw [page_step_other4xx st seen r rest h429 h5 h4]; exact ⟨_, rfl⟩
  cases hiv : pyGet r.body "issues" (Json.arr JList.nil) with
  | error e => rw [page_step_issues_error st seen r rest h429 h5 h4 hiv]; exact ⟨_, rfl⟩
  | ok iv =>
    cases ht : truthy iv with
    | false => rw [page_step_empty st seen r rest h429 h5 h4 hiv ht]; exact ⟨_, rfl⟩
    | true =>
      cases hit : toIterable iv with
      | error e =>
        rw [page_step_iter_error st seen r rest h429 h5 h4 hiv ht hit]
        exact ⟨_, rfl⟩
      | ok items =>
        cases hfail : (process_items items seen rest).failure with
        | some e =>
          rw [page_step_item_failure st seen r rest h429 h5 h4 hiv ht hit hfail]
          exact ⟨_, rfl⟩
        | none =>
          obtain ⟨kvs, hbody⟩ := pyGet_ok_obj hiv
          have hsa : pyGet r.body "startAt" (.num st)
              = .ok ((lookupField kvs "startAt").getD (.num st)) := by
            rw [hbody]; rfl
          obtain ⟨n, hlen, hn⟩ := toIterable_ok_pyLen hit
          cases hcase : asPyInt ((lookupField kvs "startAt").getD (.num st)) with
          | none =>
            rw [page_step_sa_typeerror st seen r rest h429 h5 h4 hiv ht hit
              hfail hsa hcase]
            exact ⟨_, rfl⟩
          | some sa =>
            rw [page_step_processed st seen r rest h429 h5 h4 hiv ht hit
              hfail hsa hcase hlen]
            exact ⟨_, rfl⟩

end Scraper

namespace Scraper

/-- C1: at-most-once per checkpoint.  Over every run of `scrape_project`
against any scripted server, from any loaded checkpoint: the summary keys of
the records written to the raw log are pairwise distinct; a key already in
the loaded `seen` set is never written and never fetched at the detail
endpoint; scanning the trace in order, every checkpoint save's `seen` set
contains every key written before that save (each fetched key enters the
in-memory `seen` before the page's save persists it); and every save retains
the loaded `seen` set. -/
theorem at_most_once_per_checkpoint (file : Option Checkpoint)
    (script : List HttpResponse) :
    (writtenKeys (scrape_project file script).events).Nodup ∧
    (∀ k ∈ writtenKeys (scrape_project file script).events,
      k ∉ (read_state file).seen) ∧
    (∀ k ∈ detailKeys (scrape_project file script).events,
      k ∉ (read_state file).seen) ∧
    savesRespectWrites [] (scrape_project file script).events ∧
    (∀ cp ∈ savesOf (scrape_project file script).events,
      ∀ k ∈ (read_state file).seen, k ∈ cp.seen) := by
  obtain ⟨h1, h2, h3, h4, h5, h6⟩ := scrape_run_invariant (script.length + 1)
    (read_state file).startAt (read_state file).seen script
  exact ⟨h2, h3, h4, h5 [] (by simp), h6⟩

/-- Witness for C1: a crawl loaded with `seen = [1]` against a page listing
keys 1 and 2 saves the checkpoint `(2, [1, 2])`, which still contains the
loaded key 1. -/
theorem at_most_once_witness :
    Json.num 1 ∈ (Checkpoint.mk 2 [Json.num 1, Json.num 2]).seen :=
  (at_most_once_per_checkpoint (some ⟨0, [Json.num 1]⟩)
      [⟨200, none, Json.objL [("startAt", Json.num 0), ("total", Json.num 2),
        ("issues", Json.arrL [Json.objL [("key", Json.num 1)],
          Json.objL [("key", Json.num 2)]])]⟩,
       ⟨200, none, Json.objL [("key", Json.num 2)]⟩]).2.2.2.2
    ⟨2, [Json.num 1, Json.num 2]⟩ (by decide) (Json.num 1) (by decide)

/-- C2 (counterexample to the claim as stated): against a faithful server
whose total is 0, the claimed request count ceil(total / page size) is 0, yet
the loop still issues one list request — the loop body runs before any exit
test. -/
theorem exhaustiveness_total_zero_counterexample :
    (listOffsets (scrape_project none
        [⟨200, none, Json.objL [("startAt", Json.num 0), ("total", Json.num 0),
          ("issues", Json.arr JList.nil)]⟩]).events).length = 1 ∧
    ceilDiv 0 MAX_RESULTS = 0 ∧ (1 : Nat) ≠ 0 :=
  ⟨rfl, rfl, by decide⟩

/-- C2 (amended): exhaustiveness for a faithful paging server.  For every
total T ≥ 1 and page size P ≥ 1, the crawl from a fresh state issues exactly
ceil(T / P) list requests, finishes with its cursor equal to T (hence ≥ T)
and raises nothing.  (For T = 0 the claim's request count ceil(T / P) = 0 is
off by one — see the counterexample.) -/
theorem exhaustiveness_amended (T P : Nat) (hP : 0 < P) (hT : 0 < T) :
    (listOffsets (scrape_project none
        (faithfulScript (ceilDiv T P) 0 T P)).events).length = ceilDiv T P ∧
    (scrape_project none (faithfulScript (ceilDiv T P) 0 T P)).finalStartAt
      = (T : Int) ∧
    (scrape_project none (faithfulScript (ceilDiv T P) 0 T P)).error = none :=
  faithful_run T P hP (ceilDiv T P) 0 []
    ((faithfulScript (ceilDiv T P) 0 T P).length + 1) hT (by simp)
    (fun i _ => List.not_mem_nil _) (Nat.lt_succ_self _)

/-- Witness for C2 at T = 5, P = 2: three list requests, final cursor 5. -/
theorem exhaustiveness_witness :
    (listOffsets (scrape_project none
        (faithfulScript (ceilDiv 5 2) 0 5 2)).events).length = ceilDiv 5 2 ∧
    (scrape_project none (faithfulScript (ceilDiv 5 2) 0 5 2)).finalStartAt
      = ((5 : Nat) : Int) :=
  ⟨(exhaustiveness_amended 5 2 (by decide) (by decide)).1,
   (exhaustiveness_amended 5 2 (by decide) (by decide)).2.1⟩

/-- C3 (counterexample to the claim as stated): a 3-item page fetched at
cursor 0 with configured page size MAX_RESULTS = 50 saves cursor 3 — the
echoed startAt plus the number of items on the page — not 0 + 50. -/
theorem cursor_advance_counterexample :
    savesOf (scrape_project none
      [⟨200, none, Json.objL [("startAt", Json.num 0), ("total", Json.num 3),
        ("issues", Json.arrL [Json.objL [("key", Json.num 1)],
          Json.objL [("key", Json.num 2)], Json.objL [("key", Json.num 3)]])]⟩,
       ⟨200, none, Json.objL []⟩, ⟨200, none, Json.objL []⟩,
       ⟨200, none, Json.objL []⟩]).events
      = [⟨3, [Json.num 1, Json.num 2, Json.num 3]⟩] ∧
    (3 : Int) ≠ (0 : Int) + (MAX_RESULTS : Int) :=
  ⟨rfl, by decide⟩

/-- C3 (amended): for every non-empty page processed without an exception at
cursor c, the iteration first emits the per-item fetch events, then appends
the staged batch to the logs (one `wrote` per record, raw and transformed in
lockstep), and only then saves the checkpoint; the saved cursor is
`resp.get("startAt", c) + len(issues)` — the server-echoed offset (defaulting
to c only when the response omits `startAt`) plus the number of items
actually on the page, which is c + page size only for a full page whose
response echoes c. -/
theorem cursor_advance_amended (st : Int) (seen : List Json) (r : HttpResponse)
    (rest : List HttpResponse) {iv saVal : Json} {items : List Json} {sa n : Int}
    (h1 : r.status < 400)
    (hiv : pyGet r.body "issues" (.arr .nil) = .ok iv) (ht : truthy iv = true)
    (hit : toIterable iv = .ok items)
    (hfail : (process_items items seen rest).failure = none)
    (hsa : pyGet r.body "startAt" (.num st) = .ok saVal)
    (hsa2 : asPyInt saVal = some sa) (hlen : pyLen iv = .ok n) :
    (page_step st seen r rest).events
      = .listReq st ::
          ((process_items items seen rest).events
            ++ (process_items items seen rest).batch.map
                (fun b => Event.wrote b.1 b.2.1 b.2.2)
            ++ [.saved ⟨sa + n, (process_items items seen rest).seen⟩]) ∧
    (∀ l, iv = Json.arrL l → n = (l.length : Int)) := by
  have h429 : r.status ≠ 429 := by omega
  have h5 : ¬500 ≤ r.status := by omega
  have h4 : ¬400 ≤ r.status := by omega
  rw [page_step_processed st seen r rest h429 h5 h4 hiv ht hit hfail hsa hsa2 hlen]
  refine ⟨rfl, ?_⟩
  intro l hl
  subst hl
  have heq : pyLen (Json.arrL l) = .ok ((l.length : Int)) := by
    simp [pyLen, Json.arrL]
  rw [heq] at hlen
  injection hlen with h2
  exact h2.symm

/-- Witness for C3: the 3-item page at cursor 0, concretely. -/
theorem cursor_advance_witness :
    (page_step 0 []
      ⟨200, none, Json.objL [("startAt", Json.num 0), ("total", Json.num 3),
        ("issues", Json.arrL [Json.objL [("key", Json.num 1)],
          Json.objL [("key", Json.num 2)], Json.objL [("key", Json.num 3)]])]⟩
      [⟨200, none, Json.objL []⟩, ⟨200, none, Json.objL []⟩,
       ⟨200, none, Json.objL []⟩]).events
      = .listReq 0 ::
          ((process_items [Json.objL [("key", Json.num 1)],
              Json.objL [("key", Json.num 2)], Json.objL [("key", Json.num 3)]]
              [] [⟨200, none, Json.objL []⟩, ⟨200, none, Json.objL []⟩,
                  ⟨200, none, Json.objL []⟩]).events
            ++ (process_items [Json.objL [("key", Json.num 1)],
                  Json.objL [("key", Json.num 2)], Json.objL [("key", Json.num 3)]]
                  [] [⟨200, none, Json.objL []⟩, ⟨200, none, Json.objL []⟩,
                      ⟨200, none, Json.objL []⟩]).batch.map
                (fun b => Event.wrote b.1 b.2.1 b.2.2)
            ++ [.saved ⟨(0 : Int) + 3,
                  (process_items [Json.objL [("key", Json.num 1)],
                    Json.objL [("key", Json.num 2)], Json.objL [("key", Json.num 3)]]
                    [] [⟨200, none, Json.objL []⟩, ⟨200, none, Json.objL []⟩,
                        ⟨200, none, Json.objL []⟩]).seen⟩]) :=
  (cursor_advance_amended 0 []
    ⟨200, none, Json.objL [("startAt", Json.num 0), ("total", Json.num 3),
      ("issues", Json.arrL [Json.objL [("key", Json.num 1)],
        Json.objL [("key", Json.num 2)], Json.objL [("key", Json.num 3)]])]⟩
    [⟨200, none, Json.objL []⟩, ⟨200, none, Json.objL []⟩,
     ⟨200, none, Json.objL []⟩]
    (by decide) rfl rfl rfl rfl rfl rfl rfl).1

/-- C4: rate-limit waits.  (i) A list request answered 429 makes the loop
sleep exactly `parseRetryAfter` of the `Retry-After` header, then re-enter
the loop with cursor and seen set unchanged, re-issuing the identical
request.  (ii) The detail fetch does the same on 429.  (iii) The wait is the
header's value whenever it is a non-empty digit string, and (iv, v, vi) 60
seconds when the header is absent, empty or malformed.  (vii) The pattern
iterates for every consecutive run of 429s, however long — the waits sit
outside any bounded retry budget of the crawl loop itself. -/
theorem rate_limit_wait_spec :
    (∀ (st : Int) (seen : List Json) (r : HttpResponse)
        (rest : List HttpResponse), r.status = 429 →
      scrape_loop st seen (r :: rest)
        = ⟨Event.listReq st :: Event.slept (parseRetryAfter r.retryAfter)
              :: (scrape_loop st seen rest).events,
            (scrape_loop st seen rest).finalStartAt,
            (scrape_loop st seen rest).finalSeen,
            (scrape_loop st seen rest).error⟩) ∧
    (∀ (key : Json) (r : HttpResponse) (rest : List HttpResponse),
      r.status = 429 →
      fetch_issue key (r :: rest)
        = ⟨Event.detailReq key :: Event.slept (parseRetryAfter r.retryAfter)
              :: (fetch_issue key rest).events,
            (fetch_issue key rest).outcome,
            (fetch_issue key rest).depth + 1,
            (fetch_issue key rest).remaining⟩) ∧
    (∀ s : String, s.isEmpty = false → s.toList.all Char.isDigit = true →
      parseRetryAfter (some s) = decimalValue s.toList) ∧
    parseRetryAfter (some "5") = 5 ∧
    parseRetryAfter (some "90") = 90 ∧
    parseRetryAfter none = 60 ∧
    parseRetryAfter (some "") = 60 ∧
    parseRetryAfter (some "soon") = 60 ∧
    (∀ (m : Nat) (st : Int) (seen : List Json) (r : HttpResponse)
        (script : List HttpResponse), r.status = 429 →
      scrape_loop st seen (List.replicate m r ++ script)
        = ⟨(List.replicate m [Event.listReq st,
              Event.slept (parseRetryAfter r.retryAfter)]).flatten
              ++ (scrape_loop st seen script).events,
            (scrape_loop st seen script).finalStartAt,
            (scrape_loop st seen script).finalSeen,
            (scrape_loop st seen script).error⟩) := by
  have ha : ∀ (st : Int) (seen : List Json) (r : HttpResponse)
      (rest : List HttpResponse), r.status = 429 →
      scrape_loop st seen (r :: rest)
        = ⟨Event.listReq st :: Event.slept (parseRetryAfter r.retryAfter)
              :: (scrape_loop st seen rest).events,
            (scrape_loop st seen rest).finalStartAt,
            (scrape_loop st seen rest).finalSeen,
            (scrape_loop st seen rest).error⟩ := by
    intro st seen r rest h
    have hp := page_step_429 st seen r rest h
    show scrape_run (rest.length + 1 + 1) st seen (r :: rest) = _
    simp [scrape_run, hp, scrape_loop]
  refine ⟨ha, ?_, ?_, by decide, by decide, rfl, by decide, by decide, ?_⟩
  · intro key r rest h
    simp [fetch_issue, h]
  · intro s hne hdig
    have hc : (!s.isEmpty && s.toList.all Char.isDigit) = true := by
      rw [hne, hdig]; rfl
    simp only [parseRetryAfter, hc, if_true]
  · intro m
    induction m with
    | zero =>
      intro st seen r script h
      simp
    | succ m2 ih =>
      intro st seen r script h
      rw [List.replicate_succ, List.cons_append, ha st seen r _ h,
        ih st seen r script h]
      simp [List.replicate_succ]

/-- Witness for C4: Retry-After 5 waits exactly 5 seconds, and a 429 list
response produces exactly a request, the 5-second sleep, and the repeated
request. -/
theorem rate_limit_wait_witness :
    parseRetryAfter (some "5") = 5 ∧
    scrape_loop 0 [] [⟨429, some "5", Json.null⟩]
      = ⟨[Event.listReq 0, Event.slept 5, Event.listReq 0], 0, [],
          some "script exhausted"⟩ := by
  refine ⟨rate_limit_wait_spec.2.2.1 "5" (by decide) (by decide), ?_⟩
  rw [rate_limit_wait_spec.1 0 [] ⟨429, some "5", Json.null⟩ [] rfl]
  decide

/-- C5: the spec calls `save_state` atomic — after a crash the durable
checkpoint equals the pre-save or the post-save state.  The code (lines
78-81) opens the state file with truncating mode "w" and then serializes into
it, so a crash between the truncating open and the dump leaves an empty state
file: an on-disk content that is neither the old checkpoint nor the new
one. -/
theorem save_state_not_atomic :
    "" ∈ save_state_crash_states (serialize_state ⟨0, []⟩)
      (serialize_state ⟨50, [Json.str "HADOOP-1"]⟩) ∧
    "" ≠ serialize_state ⟨0, []⟩ ∧
    "" ≠ serialize_state ⟨50, [Json.str "HADOOP-1"]⟩ :=
  ⟨by simp [save_state_crash_states], by decide, by decide⟩

/-- C6 (counterexample to the claim as stated): a record whose
`fields.status` is null — a present key with a null value, not a missing
key — makes `transform_issue_for_llm` raise AttributeError at
`fields.get("status", \x7b\x7d).get("name")` (line 111): the transform is
not total on all raw records. -/
theorem transform_null_status_counterexample :
    transform_issue_for_llm (Json.objL [("fields",
        Json.objL [("status", Json.null)])])
      = Except.error "AttributeError" := rfl

/-- Witness for C6: a concrete well-shaped record (null `priority` is
tolerated because line 112 guards it with `or \x7b\x7d`). -/
theorem transform_wellShaped_witness :
    wellShapedIssue (Json.objL [("key", Json.str "HADOOP-1"),
        ("fields", Json.objL [("summary", Json.str "t"),
          ("priority", Json.null)])]) = true ∧
    exceptOk (transform_issue_for_llm (Json.objL [("key", Json.str "HADOOP-1"),
        ("fields", Json.objL [("summary", Json.str "t"),
          ("priority", Json.null)])])) = true :=
  ⟨by decide, transform_wellShaped_total _ (by decide)⟩

/-- C7 (counterexample to the claim as stated): the cursor is not
monotone regardless of server-reported values.  Resuming from a loaded
checkpoint with cursor 100 against a response reporting `startAt = 0` with
one issue, the run saves cursor 1 < 100: line 229 rebases the cursor on the
server-echoed offset. -/
theorem cursor_monotone_counterexample :
    savesOf (scrape_project (some ⟨100, []⟩)
      [⟨200, none, Json.objL [("startAt", Json.num 0), ("total", Json.num 1),
        ("issues", Json.arrL [Json.objL [("key", Json.num 7)]])]⟩,
       ⟨200, none, Json.objL []⟩]).events = [⟨1, [Json.num 7]⟩] ∧
    (read_state (some (Checkpoint.mk 100 []))).startAt = 100 ∧
    (1 : Int) < 100 :=
  ⟨rfl, rfl, by decide⟩

/-- C7 (amended): `seen` only grows, unconditionally: along every run the
saved checkpoints' seen sets form a growing chain from the loaded checkpoint,
and the final in-memory seen set retains every loaded key.  The cursor is
additionally monotone non-decreasing along that chain provided every
response omits `startAt`, so line 229 falls back to the request offset as
the base; a server echoing a smaller `startAt` drags the cursor backwards
(see the counterexample). -/
theorem checkpoint_monotone_amended (file : Option Checkpoint)
    (script : List HttpResponse) :
    List.Chain (fun a b : Checkpoint => ∀ k ∈ a.seen, k ∈ b.seen)
      ⟨(read_state file).startAt, (read_state file).seen⟩
      (savesOf (scrape_project file script).events) ∧
    (∀ k ∈ (read_state file).seen, k ∈ (scrape_project file script).finalSeen) ∧
    ((∀ r ∈ script, hasKey r.body "startAt" = false) →
      List.Chain cpLe ⟨(read_state file).startAt, (read_state file).seen⟩
        (savesOf (scrape_project file script).events)) := by
  refine ⟨scrape_run_seen_chain (script.length + 1) (read_state file).startAt
    (read_state file).seen script, ?_, fun h =>
    scrape_run_cp_chain (script.length + 1) (read_state file).startAt
      (read_state file).seen script h⟩
  obtain ⟨⟨ext, hext⟩, -, -, -, -, -⟩ := scrape_run_invariant (script.length + 1)
    (read_state file).startAt (read_state file).seen script
  intro k hk
  show k ∈ (scrape_run (script.length + 1) (read_state file).startAt
    (read_state file).seen script).finalSeen
  rw [hext]
  exact List.mem_append_left _ hk

/-- Witness for C7: against a script whose responses carry no `startAt`, the
saved checkpoints ascend in `cpLe` from the fresh state. -/
theorem checkpoint_monotone_witness :
    List.Chain cpLe ⟨(read_state (none : Option Checkpoint)).startAt,
        (read_state (none : Option Checkpoint)).seen⟩
      (savesOf (scrape_project none
        [⟨200, none, Json.objL [("total", Json.num 1),
          ("issues", Json.arrL [Json.objL [("key", Json.num 1)]])]⟩,
         ⟨200, none, Json.objL []⟩]).events) :=
  (checkpoint_monotone_amended none
    [⟨200, none, Json.objL [("total", Json.num 1),
      ("issues", Json.arrL [Json.objL [("key", Json.num 1)]])]⟩,
     ⟨200, none, Json.objL []⟩]).2.2 (by decide)

/-- C8: raw/transformed correspondence.  Over every run against any scripted
server, the i-th line appended to the transformed log is exactly
`transform_issue_for_llm` of the i-th line appended to the raw log (same
length, same order, pointwise transform); and `write_jsonl` preserves its
input: it keeps the log's existing lines as a prefix and appends one
serialized record per line in batch order. -/
theorem log_order_correspondence (file : Option Checkpoint)
    (script : List HttpResponse) :
    List.Forall₂ (fun raw t => transform_issue_for_llm raw = Except.ok t)
      (rawLog (scrape_project file script).events)
      (transformedLog (scrape_project file script).events) ∧
    (∀ (log : List String) (records : List Json),
      (write_jsonl log records).take log.length = log ∧
      (write_jsonl log records).drop log.length
        = records.map fun r => dumps r ++ "\n") := by
  refine ⟨?_, fun log records => ⟨List.take_left log _, List.drop_left log _⟩⟩
  exact rawLog_transformedLog_forall2 _
    (scrape_run_wrote_ok (script.length + 1) (read_state file).startAt
      (read_state file).seen script)

/-- Witness for C8 on a one-record run. -/
theorem log_order_witness :
    List.Forall₂ (fun raw t => transform_issue_for_llm raw = Except.ok t)
      (rawLog (scrape_project none
        [⟨200, none, Json.objL [("startAt", Json.num 0), ("total", Json.num 1),
          ("issues", Json.arrL [Json.objL [("key", Json.num 9)]])]⟩,
         ⟨200, none, Json.objL [("key", Json.num 9)]⟩]).events)
      (transformedLog (scrape_project none
        [⟨200, none, Json.objL [("startAt", Json.num 0), ("total", Json.num 1),
          ("issues", Json.arrL [Json.objL [("key", Json.num 9)]])]⟩,
         ⟨200, none, Json.objL [("key", Json.num 9)]⟩]).events) :=
  (log_order_correspondence none
    [⟨200, none, Json.objL [("startAt", Json.num 0), ("total", Json.num 1),
      ("issues", Json.arrL [Json.objL [("key", Json.num 9)]])]⟩,
     ⟨200, none, Json.objL [("key", Json.num 9)]⟩]).1

/-- C9: the spec requires the 429 retry of the detail fetch to be an
iterative wait-then-retry loop with bounded call-stack depth; the code's
retry (line 157, `return fetch_issue(issue_key, time.time())`) is a
recursive call, so n consecutive 429 responses produce n + 1 nested
`fetch_issue` activations — the stack grows linearly with the length of the
rate-limited streak, unbounded under sustained rate limiting. -/
theorem fetch_issue_recursion_depth (n : Nat) :
    (fetch_issue (Json.str "HADOOP-1")
      (List.replicate n ⟨429, some "1", Json.null⟩
        ++ [⟨200, none, Json.objL []⟩])).depth = n + 1 := by
  induction n with
  | zero => rfl
  | succ m ih => simp [List.replicate_succ, fetch_issue, ih]

/-- Witness for C9 at a streak of three 429s: depth 4. -/
theorem fetch_issue_recursion_witness :
    (fetch_issue (Json.str "HADOOP-1")
      (List.replicate 3 ⟨429, some "1", Json.null⟩
        ++ [⟨200, none, Json.objL []⟩])).depth = 3 + 1 :=
  fetch_issue_recursion_depth 3

/-- C10: probe-then-stop frame.  (i) Every run issues the list request first:
whatever the loaded cursor (including one at or past the server total), the
trace begins with a list request at that cursor.  (ii) When that request
succeeds and its `issues` value is empty/falsy, the run terminates right
there: the whole trace is that single list request — no detail fetch, no
sleep, no write to either log, no checkpoint save — and the in-memory cursor
and seen set are returned unchanged with no exception. -/
theorem empty_first_page_frame :
    (∀ (st : Int) (seen : List Json) (script : List HttpResponse),
      ∃ tl, (scrape_loop st seen script).events = Event.listReq st :: tl) ∧
    (∀ (st : Int) (seen : List Json) (r : HttpResponse)
        (rest : List HttpResponse) (iv : Json),
      r.status < 400 → pyGet r.body "issues" (.arr .nil) = .ok iv →
      truthy iv = false →
      scrape_loop st seen (r :: rest)
        = ⟨[Event.listReq st], st, seen, none⟩) := by
  constructor
  · intro st seen script
    cases script with
    | nil => exact ⟨[], rfl⟩
    | cons r rest =>
      obtain ⟨tl, htl⟩ := page_step_events_head st seen r rest
      cases hnext : (page_step st seen r rest).next with
      | again st2 seen2 rem =>
        refine ⟨tl ++ (scrape_run (rest.length + 1) st2 seen2 rem).events, ?_⟩
        simp [scrape_loop, scrape_run, hnext, htl]
      | stop st2 seen2 => exact ⟨tl, by simp [scrape_loop, scrape_run, hnext, htl]⟩
      | fail st2 seen2 msg => exact ⟨tl, by simp [scrape_loop, scrape_run, hnext, htl]⟩
  · intro st seen r rest iv h1 h2 h3
    have h429 : r.status ≠ 429 := by omega
    have h5 : ¬500 ≤ r.status := by omega
    have h4 : ¬400 ≤ r.status := by omega
    have hp := page_step_empty st seen r rest h429 h5 h4 h2 h3
    show scrape_run (rest.length + 1 + 1) st seen (r :: rest) = _
    simp [scrape_run, hp]

/-- Witness for C10: a loaded cursor 5 already at or past the reported total
3 still issues the probe request, and the empty page ends the run with state
untouched. -/
theorem empty_first_page_witness :
    scrape_loop 5 [Json.num 1]
      [⟨200, none, Json.objL [("total", Json.num 3),
        ("issues", Json.arr JList.nil)]⟩]
      = ⟨[Event.listReq 5], 5, [Json.num 1], none⟩ :=
  empty_first_page_frame.2 5 [Json.num 1]
    ⟨200, none, Json.objL [("total", Json.num 3),
      ("issues", Json.arr JList.nil)]⟩ [] (Json.arr JList.nil)
    (by decide) rfl rfl

end Scraper
